import Mathlib

/-!
# rmm::mr::pool_memory_resource and simulated_memory_resource

A shallow embedding of the pool policy layer of
`include/rmm/mr/device/pool_memory_resource.hpp` and of the linear bump allocator of
`benchmarks/utilities/simulated_memory_resource.hpp`.

* `std::size_t` values are natural numbers below `2 ^ 64`; every `size_t` operation that can
  overflow is written with an explicit `% size_t_range`.
* Pointers (`char*`, `void*`) are addresses in a flat 64-bit address space; pointer plus offset
  is `ptr_add`.
* The upstream resource is a state machine: `allocate` yields `none` when the C++ call throws.
* A C++ member function that mutates the object takes the object state and returns the new one;
  a thrown exception is the `Except.error` component of the result, next to the state the
  object is left in.
* Every call made on the upstream resource is appended to the ghost field `upstream_calls`, and
  every call of the base-class hook `insert_block` to the ghost field `inserted_blocks`.
* The `cuda_stream_view` argument of the pool functions is only forwarded (to the upstream
  resource and to the logger) and is left out, except where it selects the legacy stream.
-/

namespace rmm

/-- The number of values of a 64-bit `std::size_t` (and of a 64-bit address). -/
def size_t_range : Nat := 2 ^ 64

/-- The constant `std::numeric_limits<std::size_t>::max()`. -/
def SIZE_MAX : Nat := size_t_range - 1

/-- Modelled from the spec: the constant `rmm::detail::CUDA_ALLOCATION_ALIGNMENT`
(rmm/detail/aligned.hpp is not among the sources); the allocation alignment is 256 bytes. -/
def CUDA_ALLOCATION_ALIGNMENT : Nat := 256

/-- Modelled from the spec: `rmm::detail::align_up` (rmm/detail/aligned.hpp is not among the
sources): `value` rounded up to a multiple of `alignment`. The result is a `std::size_t`, so the
addition `value + (alignment - 1)` wraps at `2 ^ 64`. -/
def align_up (value alignment : Nat) : Nat :=
  (value + (alignment - 1)) % size_t_range / alignment * alignment

/-- Modelled from the spec: `rmm::detail::is_aligned` (rmm/detail/aligned.hpp is not among the
sources): `value` is a multiple of `alignment`. -/
def is_aligned (value alignment : Nat) : Bool :=
  value % alignment == 0

/-- Pointer plus byte offset in the flat 64-bit address space. -/
def ptr_add (ptr offset : Nat) : Nat :=
  (ptr + offset) % size_t_range

/-- Modelled from the spec: `detail::block`, the block type of `coalescing_free_list`
(rmm/mr/device/detail/coalescing_free_list.hpp is not among the sources): the half-open byte
range `[pointer, pointer + size)` with the head-of-upstream-allocation flag. -/
structure block where
  pointer : Nat
  size : Nat
  is_head : Bool
deriving DecidableEq, Repr

/-- The default-constructed block `block_type{}`: null pointer, zero size, not a head. It is the
zero-size sentinel standing for "no block". -/
def block.empty : block := { pointer := 0, size := 0, is_head := false }

/-- A stream handle (an opaque value of the accelerator runtime). -/
abbrev cuda_stream_view := Nat

/-- The legacy default stream handle. -/
def cuda_stream_legacy : cuda_stream_view := 1

/-- The exceptions that leave the modelled code: `rmm::logic_error` (the default of
`RMM_EXPECTS`), `rmm::out_of_memory`, `rmm::bad_alloc`, and `upstream_exception` for an
exception thrown by the upstream resource that is not derived from `std::exception`, which the
pool does not catch. -/
inductive error where
  | logic_error
  | out_of_memory
  | bad_alloc
  | upstream_exception
deriving DecidableEq, Repr

/-- One call made on the upstream resource: an `allocate(bytes)` with the pointer it returned
(`none` when it threw), or a `deallocate(ptr, bytes)`. -/
inductive upstream_call where
  | allocate (bytes : Nat) (result : Option Nat)
  | deallocate (ptr : Nat) (bytes : Nat)
deriving DecidableEq, Repr

/-- The upstream resource interface the pool consumes, over upstream states `σ`.
`allocate u bytes` returns the pointer (or `none` when the call throws) and the next upstream
state; `deallocate` cannot fail. For a call that throws, `throws_std_exception u bytes` tells
whether the exception thrown is derived from `std::exception` (as `rmm::bad_alloc` and
`rmm::out_of_memory` are); it is so unless the resource says otherwise. -/
structure upstream_resource (σ : Type) where
  allocate : σ → Nat → Option Nat × σ
  deallocate : σ → Nat → Nat → σ
  supports_get_mem_info : Bool
  get_mem_info : σ → Nat × Nat
  throws_std_exception : σ → Nat → Bool := fun _ _ => true

/-! ## simulated_memory_resource -/

/-- The state of a `simulated_memory_resource`: the two private pointers. -/
structure simulated_memory_resource where
  begin_ : Nat
  end_ : Nat
deriving DecidableEq, Repr

namespace simulated_memory_resource

/-- The constructor `simulated_memory_resource(memory_size_bytes)`. -/
def new (memory_size_bytes : Nat) : simulated_memory_resource :=
  { begin_ := 0x100, end_ := ptr_add 0x100 memory_size_bytes }

/-- The member `do_allocate(bytes, stream)`: `RMM_EXPECTS(begin_ + bytes <= end_, ..., bad_alloc)`,
then return the old `begin_` and advance it. -/
def do_allocate (mr : simulated_memory_resource) (bytes : Nat) :
    Except error Nat × simulated_memory_resource :=
  if ptr_add mr.begin_ bytes ≤ mr.end_ then
    (.ok mr.begin_, { mr with begin_ := ptr_add mr.begin_ bytes })
  else
    (.error .bad_alloc, mr)

/-- The member `do_deallocate(ptr, bytes, stream)`, whose body is empty. -/
def do_deallocate (mr : simulated_memory_resource) (_ptr _bytes : Nat) :
    simulated_memory_resource :=
  mr

/-- The member `supports_get_mem_info()`. -/
def supports_get_mem_info : Bool := false

/-- The member `do_get_mem_info(stream)`. -/
def do_get_mem_info (_mr : simulated_memory_resource) : Nat × Nat := (0, 0)

end simulated_memory_resource

/-- Modelled from the spec: the public `allocate`/`deallocate`/`get_mem_info` of the base class
`device_memory_resource` (rmm/mr/device/device_memory_resource.hpp is not among the sources),
which forward to the `do_` members with the byte count as given; here for a
`simulated_memory_resource` used as upstream. -/
def simulated_upstream : upstream_resource simulated_memory_resource where
  allocate := fun mr bytes =>
    match mr.do_allocate bytes with
    | (.ok ptr, mr') => (some ptr, mr')
    | (.error _, mr') => (none, mr')
  deallocate := fun mr ptr bytes => mr.do_deallocate ptr bytes
  supports_get_mem_info := simulated_memory_resource.supports_get_mem_info
  get_mem_info := fun mr => mr.do_get_mem_info

/-- An upstream resource that replays a script: each `allocate` consumes the next entry, which
is the pointer to return or `none` to throw; an exhausted script throws. It realises an
arbitrary pattern of upstream successes and failures. -/
def scripted_upstream : upstream_resource (List (Option Nat)) where
  allocate := fun script _bytes =>
    match script with
    | [] => (none, [])
    | r :: rest => (r, rest)
  deallocate := fun script _ptr _bytes => script
  supports_get_mem_info := false
  get_mem_info := fun _ => (0, 0)

/-- An upstream resource whose `allocate` always throws an exception that is not derived from
`std::exception` (as `throw 42;` does); its state counts the calls made to `allocate`. -/
def foreign_upstream : upstream_resource Nat where
  allocate := fun calls _bytes => (none, calls + 1)
  deallocate := fun calls _ptr _bytes => calls
  supports_get_mem_info := false
  get_mem_info := fun _ => (0, 0)
  throws_std_exception := fun _ _ => false

/-! ## pool_memory_resource -/

/-- The state of a `pool_memory_resource<Upstream>`: the private members `current_pool_size_`,
`maximum_pool_size_` and `upstream_blocks_` (a `std::set` ordered by block pointer, kept as the
list of its elements in iteration order), the state of the upstream resource behind
`upstream_mr_`, and the two ghost logs. -/
structure pool_memory_resource (σ : Type) where
  upstream_mr_ : σ
  current_pool_size_ : Nat
  maximum_pool_size_ : Option Nat
  upstream_blocks_ : List block
  upstream_calls : List upstream_call
  inserted_blocks : List (block × cuda_stream_view)
deriving DecidableEq, Repr

/-- The operation `std::set::emplace` on the ledger, whose comparator `compare_blocks` orders
blocks by pointer: the block is inserted at its place unless an element with the same pointer
is present; the result is the new set and the element `*emplace(...).first`, that is the
inserted block or the one that prevented the insertion. -/
def emplace : List block → block → List block × block
  | [], b => ([b], b)
  | x :: xs, b =>
    if b.pointer < x.pointer then (b :: x :: xs, b)
    else if x.pointer < b.pointer then ((x :: (emplace xs b).1), (emplace xs b).2)
    else (x :: xs, x)

/-- The test `upstream_blocks_.find(ptr) != upstream_blocks_.end()`. -/
def ledger_contains (ledger : List block) (ptr : Nat) : Bool :=
  ledger.any (fun x => x.pointer == ptr)

/-- The sum of the sizes of the blocks of a ledger. -/
def ledger_total (ledger : List block) : Nat :=
  (ledger.map block.size).sum

variable {σ : Type}

/-- The member `pool_size()`. -/
def pool_size (p : pool_memory_resource σ) : Nat := p.current_pool_size_

/-- The member `size_to_grow(size)`. -/
def size_to_grow (p : pool_memory_resource σ) (size : Nat) : Nat :=
  match p.maximum_pool_size_ with
  | some maximum =>
    let unaligned_remaining := (maximum + size_t_range - pool_size p) % size_t_range
    let remaining := align_up unaligned_remaining CUDA_ALLOCATION_ALIGNMENT
    let aligned_size := align_up size CUDA_ALLOCATION_ALIGNMENT
    if aligned_size ≤ remaining then max aligned_size (remaining / 2) else 0
  | none => max size (pool_size p)

/-- The member `block_from_upstream(size, stream)`: nothing for size zero; otherwise one upstream
`allocate(size)`, whose block is emplaced in the ledger. The handler is
`catch (std::exception const&)`: an exception derived from `std::exception` is caught and the
result is nothing; an exception of another type is not caught and leaves the function. -/
def block_from_upstream (up : upstream_resource σ) (p : pool_memory_resource σ) (size : Nat) :
    Except error (Option block) × pool_memory_resource σ :=
  if size = 0 then (.ok none, p)
  else
    match (up.allocate p.upstream_mr_ size).1 with
    | some ptr =>
      (.ok (some (emplace p.upstream_blocks_ ⟨ptr, size, true⟩).2),
        { p with
          upstream_mr_ := (up.allocate p.upstream_mr_ size).2
          upstream_blocks_ := (emplace p.upstream_blocks_ ⟨ptr, size, true⟩).1
          upstream_calls := p.upstream_calls ++ [.allocate size (some ptr)] })
    | none =>
      (if up.throws_std_exception p.upstream_mr_ size then .ok none
        else .error .upstream_exception,
        { p with
          upstream_mr_ := (up.allocate p.upstream_mr_ size).2
          upstream_calls := p.upstream_calls ++ [.allocate size none] })

/-- The loop of `try_to_expand`, by recursion on a bound `fuel` of the number of iterations
left that is known to exceed `try_size - min_size`. An exception that leaves
`block_from_upstream` leaves `try_to_expand` too. -/
def try_to_expand_loop (up : upstream_resource σ) :
    (fuel : Nat) → (p : pool_memory_resource σ) → (try_size min_size : Nat) →
    try_size - min_size < fuel → Except error block × pool_memory_resource σ
  | 0, _, _, _, h => absurd h (Nat.not_lt_zero _)
  | fuel + 1, p, try_size, min_size, h =>
    if hge : min_size ≤ try_size then
      match (block_from_upstream up p try_size).1 with
      | .error e => (.error e, (block_from_upstream up p try_size).2)
      | .ok (some blk) =>
        (.ok blk,
          { (block_from_upstream up p try_size).2 with
            current_pool_size_ :=
              ((block_from_upstream up p try_size).2.current_pool_size_ + blk.size)
                % size_t_range })
      | .ok none =>
        if hne : try_size = min_size then
          (.error .out_of_memory, (block_from_upstream up p try_size).2)
        else
          try_to_expand_loop up fuel (block_from_upstream up p try_size).2
            (max min_size (try_size / 2)) min_size
            (by
              rcases Nat.le_total min_size (try_size / 2) with hm | hm
              · rw [Nat.max_eq_right hm]; omega
              · rw [Nat.max_eq_left hm]; omega)
    else
      (.error .out_of_memory, p)

/-- The member `try_to_expand(try_size, min_size, stream)`. -/
def try_to_expand (up : upstream_resource σ) (p : pool_memory_resource σ)
    (try_size min_size : Nat) : Except error block × pool_memory_resource σ :=
  try_to_expand_loop up (try_size - min_size + 1) p try_size min_size (Nat.lt_succ_self _)

/-- The member `expand_pool(size, blocks, stream)`; the free list `blocks` is ignored. -/
def expand_pool (up : upstream_resource σ) (p : pool_memory_resource σ) (size : Nat) :
    Except error block × pool_memory_resource σ :=
  try_to_expand up p (size_to_grow p size) size

/-- The member `allocate_from_block(block, size)` (default build): the allocated piece and the
remainder; the object is not modified. -/
def allocate_from_block (p : pool_memory_resource σ) (b : block) (size : Nat) :
    (block × block) × pool_memory_resource σ :=
  let alloc : block := { pointer := b.pointer, size := size, is_head := b.is_head }
  let rest : block :=
    if b.size > size then
      { pointer := ptr_add b.pointer size, size := b.size - size, is_head := false }
    else block.empty
  ((alloc, rest), p)

/-- The member `free_block(ptr, size)` (default build, `RMM_POOL_TRACK_ALLOCATIONS` undefined);
the object is not modified. -/
def free_block (p : pool_memory_resource σ) (ptr size : Nat) :
    block × pool_memory_resource σ :=
  ({ pointer := ptr, size := size, is_head := ledger_contains p.upstream_blocks_ ptr }, p)

/-- The member `release()`: every ledger block is handed to the upstream `deallocate`, in
iteration order; then the ledger is cleared and the pool size reset. -/
def release (up : upstream_resource σ) (p : pool_memory_resource σ) : pool_memory_resource σ :=
  { p with
    upstream_mr_ :=
      p.upstream_blocks_.foldl (fun u blk => up.deallocate u blk.pointer blk.size) p.upstream_mr_
    upstream_calls :=
      p.upstream_calls ++ p.upstream_blocks_.map (fun blk => .deallocate blk.pointer blk.size)
    upstream_blocks_ := []
    current_pool_size_ := 0 }

/-- The value of the local `try_size` of `initialize_pool`: the supplied initial size, or else
the smaller of the free memory and half the total memory, rounded with `align_up`; the memory
figures come from the upstream `get_mem_info` when it is supported and from
`rmm::detail::available_device_memory()`, here `device_memory`, when not. -/
def initial_try_size (up : upstream_resource σ) (device_memory : Nat × Nat) (u : σ)
    (initial_size : Option Nat) : Nat :=
  match initial_size with
  | none =>
    let mem := if up.supports_get_mem_info then up.get_mem_info u else device_memory
    align_up (min mem.1 (mem.2 / 2)) CUDA_ALLOCATION_ALIGNMENT
  | some initial => initial

/-- The member `initialize_pool(initial_size, maximum_size)`. The pair `device_memory` is what
`rmm::detail::available_device_memory()` reports, as `(free, total)`. -/
def initialize_pool (up : upstream_resource σ) (device_memory : Nat × Nat)
    (p : pool_memory_resource σ) (initial_size maximum_size : Option Nat) :
    Except error Unit × pool_memory_resource σ :=
  let try_size := initial_try_size up device_memory p.upstream_mr_ initial_size
  let p1 := { p with current_pool_size_ := 0, maximum_pool_size_ := maximum_size }
  if try_size ≤ maximum_size.getD SIZE_MAX then
    if try_size > 0 then
      match (try_to_expand up p1 try_size try_size).1 with
      | .ok blk =>
        (.ok (),
          { (try_to_expand up p1 try_size try_size).2 with
            inserted_blocks :=
              (try_to_expand up p1 try_size try_size).2.inserted_blocks
                ++ [(blk, cuda_stream_legacy)] })
      | .error e => (.error e, (try_to_expand up p1 try_size try_size).2)
    else (.ok (), p1)
  else (.error .logic_error, p1)

/-- The constructor `pool_memory_resource(upstream_mr, initial_pool_size, maximum_pool_size)`;
`upstream_mr` is `none` for a null pointer. On success the result is the constructed object; on
failure it is the exception together with the upstream calls made before it was thrown. -/
def pool_memory_resource.new (up : upstream_resource σ) (device_memory : Nat × Nat)
    (upstream_mr : Option σ) (initial_pool_size maximum_pool_size : Option Nat) :
    Except (error × List upstream_call) (pool_memory_resource σ) :=
  match upstream_mr with
  | none => .error (.logic_error, [])
  | some u =>
    if is_aligned (initial_pool_size.getD 0) CUDA_ALLOCATION_ALIGNMENT then
      if is_aligned (maximum_pool_size.getD 0) CUDA_ALLOCATION_ALIGNMENT then
        let p0 : pool_memory_resource σ :=
          { upstream_mr_ := u, current_pool_size_ := 0, maximum_pool_size_ := none,
            upstream_blocks_ := [], upstream_calls := [], inserted_blocks := [] }
        match initialize_pool up device_memory p0 initial_pool_size maximum_pool_size with
        | (.ok _, p) => .ok p
        | (.error e, p) => .error (e, p.upstream_calls)
      else .error (.logic_error, [])
    else .error (.logic_error, [])

/-! ## Sequences of operations -/

/-- The operations that the stream-ordered base class and the destructor perform on the pool
policy layer. -/
inductive pool_op where
  | expand_pool (size : Nat)
  | free_block (ptr size : Nat)
  | allocate_from_block (b : block) (size : Nat)
  | release
deriving DecidableEq, Repr

/-- The state of the pool after one operation (whether it returned or threw). -/
def apply_op (up : upstream_resource σ) (p : pool_memory_resource σ) :
    pool_op → pool_memory_resource σ
  | .expand_pool size => (expand_pool up p size).2
  | .free_block ptr size => (free_block p ptr size).2
  | .allocate_from_block b size => (allocate_from_block p b size).2
  | .release => release up p

/-- The state of the pool after a sequence of operations. -/
def run_ops (up : upstream_resource σ) (p : pool_memory_resource σ) (ops : List pool_op) :
    pool_memory_resource σ :=
  ops.foldl (apply_op up) p

/-- During this operation the upstream resource did not return a pointer that the ledger
already held: a successful `expand_pool` returned a block whose pointer was not in the ledger
before the call. -/
def op_fresh (up : upstream_resource σ) (p : pool_memory_resource σ) : pool_op → Bool
  | .expand_pool size =>
    match (expand_pool up p size).1 with
    | .ok b => !ledger_contains p.upstream_blocks_ b.pointer
    | .error _ => true
  | _ => true

/-- Along this sequence of operations the upstream resource never returned a pointer that the
ledger already held. -/
def ops_fresh (up : upstream_resource σ) : pool_memory_resource σ → List pool_op → Bool
  | _, [] => true
  | p, op :: ops => op_fresh up p op && ops_fresh up (apply_op up p op) ops

/-! ## The back-off sequence of try_to_expand, as the specification words it -/

/-- The sizes of the halving sequence: `t 0 = try_size` and `t (i + 1) = max min_size (t i / 2)`. -/
def halving (try_size min_size : Nat) : Nat → Nat
  | 0 => try_size
  | i + 1 => max min_size (halving try_size min_size i / 2)

/-- The upstream resource refuses a request of `size` bytes in state `u`: it is not asked at
all because the size is zero, or its `allocate` throws. -/
def refuses (up : upstream_resource σ) (u : σ) (size : Nat) : Prop :=
  size = 0 ∨ (up.allocate u size).1 = none

/-- The upstream resource refuses a request of `size` bytes in state `u` in a way that
`block_from_upstream` absorbs: it is not asked at all because the size is zero, or its
`allocate` throws an exception derived from `std::exception`. -/
def absorbed (up : upstream_resource σ) (u : σ) (size : Nat) : Prop :=
  size = 0 ∨ ((up.allocate u size).1 = none ∧ up.throws_std_exception u size = true)

/-- The upstream resource is asked for `size` bytes in state `u` and its `allocate` throws an
exception that is not derived from `std::exception`. -/
def propagates (up : upstream_resource σ) (u : σ) (size : Nat) : Prop :=
  size ≠ 0 ∧ (up.allocate u size).1 = none ∧ up.throws_std_exception u size = false

/-- The state of the upstream resource after it was tried with the first `i` sizes of the
halving sequence, each of them refused (a size of zero is not asked for). -/
def upstream_after (up : upstream_resource σ) (u : σ) (try_size min_size : Nat) : Nat → σ
  | 0 => u
  | i + 1 =>
    if halving try_size min_size i = 0 then upstream_after up u try_size min_size i
    else (up.allocate (upstream_after up u try_size min_size i) (halving try_size min_size i)).2

/-- The upstream calls logged while the first `k` sizes of the sequence that starts at
`try_size` were refused. -/
def refusal_calls (min_size : Nat) : Nat → Nat → List upstream_call
  | _, 0 => []
  | try_size, k + 1 =>
    (if try_size = 0 then [] else [upstream_call.allocate try_size none])
      ++ refusal_calls min_size (max min_size (try_size / 2)) k

/-- The pool after the first `k` sizes of the halving sequence were refused: only the upstream
resource and the log of upstream calls have moved. -/
def refused_state (up : upstream_resource σ) (p : pool_memory_resource σ)
    (try_size min_size k : Nat) : pool_memory_resource σ :=
  { p with
    upstream_mr_ := upstream_after up p.upstream_mr_ try_size min_size k
    upstream_calls := p.upstream_calls ++ refusal_calls min_size try_size k }

/-- The pool after upstream granted `size` bytes at `ptr` to the pool `q`: what
`block_from_upstream` and then `try_to_expand` do to the object on a success. -/
def granted_state (up : upstream_resource σ) (q : pool_memory_resource σ)
    (size ptr : Nat) : pool_memory_resource σ :=
  { q with
    upstream_mr_ := (up.allocate q.upstream_mr_ size).2
    upstream_blocks_ := (emplace q.upstream_blocks_ ⟨ptr, size, true⟩).1
    upstream_calls := q.upstream_calls ++ [.allocate size (some ptr)]
    current_pool_size_ :=
      (q.current_pool_size_ + (emplace q.upstream_blocks_ ⟨ptr, size, true⟩).2.size)
        % size_t_range }

/-! ## Concrete pools used in the scenarios -/

/-- One mebibyte. -/
def MiB : Nat := 1048576

/-- One kibibyte. -/
def KiB : Nat := 1024

/-- A pool object with an empty ledger over the upstream state `u`, with the given pool size
ceiling: the state of a pool that has not obtained any memory. -/
def empty_pool (u : σ) (maximum : Option Nat) : pool_memory_resource σ :=
  { upstream_mr_ := u, current_pool_size_ := 0, maximum_pool_size_ := maximum,
    upstream_blocks_ := [], upstream_calls := [], inserted_blocks := [] }

/-- The pool built with initial size 256 and maximum size 1024 over a simulated upstream of
4096 bytes, as the constructor leaves it. -/
def small_pool : pool_memory_resource simulated_memory_resource :=
  { upstream_mr_ := { begin_ := 512, end_ := 4352 }
    current_pool_size_ := 256
    maximum_pool_size_ := some 1024
    upstream_blocks_ := [⟨256, 256, true⟩]
    upstream_calls := [.allocate 256 (some 256)]
    inserted_blocks := [(⟨256, 256, true⟩, cuda_stream_legacy)] }

/-- The pool of the end-to-end scenarios: initial size 1 MiB and maximum size 2 MiB over a
simulated upstream of 4 MiB, as the constructor leaves it. -/
def scenario_pool : pool_memory_resource simulated_memory_resource :=
  { upstream_mr_ := { begin_ := 0x100 + MiB, end_ := 0x100 + 4 * MiB }
    current_pool_size_ := MiB
    maximum_pool_size_ := some (2 * MiB)
    upstream_blocks_ := [⟨0x100, MiB, true⟩]
    upstream_calls := [.allocate MiB (some 0x100)]
    inserted_blocks := [(⟨0x100, MiB, true⟩, cuda_stream_legacy)] }

/-- The pool after a scripted upstream granted 256 bytes at address 4096 and is about to return
the same address again. -/
def duplicate_pool : pool_memory_resource (List (Option Nat)) :=
  { upstream_mr_ := [some 4096]
    current_pool_size_ := 256
    maximum_pool_size_ := none
    upstream_blocks_ := [⟨4096, 256, true⟩]
    upstream_calls := [.allocate 256 (some 4096)]
    inserted_blocks := [] }

/-- A sequence of operations on `small_pool`: a growth, the return of a pointer, a split, and a
growth that the ceiling forbids. -/
def small_pool_ops : List pool_op :=
  [.expand_pool 256, .free_block 256 256, .allocate_from_block ⟨512, 384, true⟩ 128,
   .expand_pool 8192]

/-- A pool whose ledger holds one upstream block of 1024 bytes at address 256. -/
def one_block_pool : pool_memory_resource simulated_memory_resource :=
  { upstream_mr_ := { begin_ := 1280, end_ := 4352 }
    current_pool_size_ := 1024
    maximum_pool_size_ := none
    upstream_blocks_ := [⟨256, 1024, true⟩]
    upstream_calls := [.allocate 1024 (some 256)]
    inserted_blocks := [(⟨256, 1024, true⟩, cuda_stream_legacy)] }

/-- The two allocations of 512 KiB of scenario 1, as the splits they cause: the initial block is
split in two halves, and the second half is taken whole. -/
def scenario_allocations : List pool_op :=
  [.allocate_from_block ⟨0x100, MiB, true⟩ (512 * KiB),
   .allocate_from_block ⟨0x100 + 512 * KiB, 512 * KiB, false⟩ (512 * KiB)]

/-- The pool over a scripted upstream that returns address 4096, then 8192, then 4096 a
second time; no pool size ceiling. -/
def replay_pool : pool_memory_resource (List (Option Nat)) :=
  empty_pool [some 4096, some 8192, some 4096] none

/-- A scripted upstream that supports `get_mem_info` and reports the pair `info`. -/
def reporting_upstream (info : Nat × Nat) : upstream_resource (List (Option Nat)) :=
  { scripted_upstream with
    supports_get_mem_info := true
    get_mem_info := fun _ => info }

/-! ## The log of upstream calls -/

/-- The `(pointer, size)` pairs of the successful upstream allocations of a log, in order. -/
def granted_blocks (log : List upstream_call) : List (Nat × Nat) :=
  log.filterMap fun c =>
    match c with
    | .allocate bytes (some ptr) => some (ptr, bytes)
    | _ => none

/-- The `(pointer, size)` pairs handed to the upstream `deallocate` in a log, in order. -/
def released_blocks (log : List upstream_call) : List (Nat × Nat) :=
  log.filterMap fun c =>
    match c with
    | .deallocate ptr bytes => some (ptr, bytes)
    | _ => none

/-- The `(pointer, size)` pairs of the blocks of a ledger, in iteration order. -/
def ledger_ranges (ledger : List block) : List (Nat × Nat) :=
  ledger.map fun b => (b.pointer, b.size)

/-- The upstream calls made by a construction: those logged in the constructed object, or
those made before the constructor threw. -/
def construction_calls :
    Except (error × List upstream_call) (pool_memory_resource σ) → List upstream_call
  | .ok p => p.upstream_calls
  | .error e => e.2

/-- The `(free, total)` pair that `initialize_pool` reads when no initial size is supplied: the
upstream `get_mem_info` if the upstream supports it, else what the device reports. -/
def reported_memory (up : upstream_resource σ) (device_memory : Nat × Nat) (u : σ) : Nat × Nat :=
  if up.supports_get_mem_info then up.get_mem_info u else device_memory

/-! ## Queries of the pool -/

/-- The member `supports_streams()` of the pool. -/
def pool_memory_resource.supports_streams (_p : pool_memory_resource σ) : Bool := true

/-- The member `supports_get_mem_info()` of the pool. -/
def pool_memory_resource.supports_get_mem_info (_p : pool_memory_resource σ) : Bool := false

/-- The member `do_get_mem_info(stream)` of the pool. -/
def pool_memory_resource.do_get_mem_info (_p : pool_memory_resource σ)
    (_stream : cuda_stream_view) : Nat × Nat :=
  (0, 0)

/-- The member `get_maximum_allocation_size()` of the pool. -/
def get_maximum_allocation_size (_p : pool_memory_resource σ) : Nat := SIZE_MAX

/-- Modelled from the spec: the size check of the stream-ordered base class
(rmm/mr/device/detail/stream_ordered_memory_resource.hpp is not among the sources): `allocate`
fails with `SizeExceeded` when the size, rounded up to the allocation alignment, exceeds the
maximum allocation size of the resource. -/
def size_exceeded (p : pool_memory_resource σ) (size : Nat) : Bool :=
  decide (align_up size CUDA_ALLOCATION_ALIGNMENT > get_maximum_allocation_size p)

/-! ## cuda_async_view_memory_resource -/

/-- The state of a `cuda_async_view_memory_resource`: the handle of the pool it views. -/
structure cuda_async_view_memory_resource where
  cuda_pool_handle_ : Nat
deriving DecidableEq, Repr

namespace cuda_async_view_memory_resource

/-- The member `supports_streams()`. -/
def supports_streams (_mr : cuda_async_view_memory_resource) : Bool := true

/-- The member `supports_get_mem_info()`. -/
def supports_get_mem_info (_mr : cuda_async_view_memory_resource) : Bool := false

/-- The member `do_get_mem_info(stream)`. -/
def do_get_mem_info (_mr : cuda_async_view_memory_resource) (_stream : cuda_stream_view) :
    Nat × Nat :=
  (0, 0)

end cuda_async_view_memory_resource

/-! ## Blocks as byte ranges -/

/-- The address `a` lies in the half-open byte range `[pointer, pointer + size)` of the block. -/
def block.covers (b : block) (a : Nat) : Prop :=
  b.pointer ≤ a ∧ a < b.pointer + b.size

/-- Modelled from the spec: `block::is_contiguous_before`
(rmm/mr/device/detail/coalescing_free_list.hpp is not among the sources): two blocks are
coalescible when they abut, `a.pointer + a.size == b.pointer`, and the right-hand one is not
the head of an upstream allocation. -/
def block.is_contiguous_before (a b : block) : Bool :=
  ptr_add a.pointer a.size == b.pointer && !b.is_head

/-- Modelled from the spec: `block::merge` (rmm/mr/device/detail/coalescing_free_list.hpp is not
among the sources): the block that two coalescible blocks merge into, which starts where the
left one starts, has the two sizes together and keeps the head flag of the left one. -/
def block.merge (a b : block) : block :=
  { pointer := a.pointer, size := a.size + b.size, is_head := a.is_head }

/-! ## The sizes requested from upstream -/

/-- The byte counts of the `allocate` calls of a log, in order. -/
def requested_sizes (log : List upstream_call) : List Nat :=
  log.filterMap fun c =>
    match c with
    | .allocate bytes _ => some bytes
    | _ => none

/-! ## The allocation-tracking build (RMM_POOL_TRACK_ALLOCATIONS) -/

/-- The state of a pool built with `RMM_POOL_TRACK_ALLOCATIONS`: the pool and the additional
member `allocated_blocks_`, a `std::set` ordered by block pointer, kept as the list of its
elements in iteration order. -/
structure tracking_pool (σ : Type) where
  pool : pool_memory_resource σ
  allocated_blocks_ : List block

/-- The lookup `allocated_blocks_.find(ptr)`: the recorded block at `ptr`, if there is one. -/
def find_block (blocks : List block) (ptr : Nat) : Option block :=
  blocks.find? fun x => x.pointer == ptr

/-- The removal `allocated_blocks_.erase(iter)` of the block found at `ptr`. -/
def erase_block (blocks : List block) (ptr : Nat) : List block :=
  blocks.eraseP fun x => x.pointer == ptr

/-- The member `allocate_from_block(block, size)` in the tracking build: as in the default
build, and the allocated piece is inserted in `allocated_blocks_`. -/
def allocate_from_block_tracking (tp : tracking_pool σ) (b : block) (size : Nat) :
    (block × block) × tracking_pool σ :=
  ((allocate_from_block tp.pool b size).1,
    { tp with
      allocated_blocks_ := (emplace tp.allocated_blocks_ (allocate_from_block tp.pool b size).1.1).1 })

/-- The member `free_block(ptr, size)` in the tracking build, as it runs with
`RMM_LOGGING_ASSERT` compiled out (rmm/detail/logging_assert.hpp is not among the sources): the
two assertions do nothing, the block recorded at `ptr` is erased from `allocated_blocks_` and
returned. The second assertion is the only use of `size`; it names `allocation_alignment`, of
which the sources hold no declaration, so no value is chosen for it here. The result is `none`
when no block is recorded at `ptr`, where the code dereferences `end()`. -/
def free_block_tracking (tp : tracking_pool σ) (ptr _size : Nat) :
    Option (block × tracking_pool σ) :=
  if ptr = 0 then some (block.empty, tp)
  else
    match find_block tp.allocated_blocks_ ptr with
    | none => none
    | some blk =>
      some (blk, { tp with allocated_blocks_ := erase_block tp.allocated_blocks_ ptr })

/-! ## The summary of a free list -/

/-- The member `free_list_summary(blocks)`. The free list (`detail::coalescing_free_list`,
rmm/mr/device/detail/coalescing_free_list.hpp is not among the sources) is taken as the list of
its blocks in iteration order; the result is the pair `{largest, total}`, where `total` is a
`std::size_t` accumulated with `+=`. -/
def free_list_summary (blocks : List block) : Nat × Nat :=
  blocks.foldl
    (fun acc blk => (max acc.1 blk.size, (acc.2 + blk.size) % size_t_range))
    (0, 0)

/-- The maximum of the sizes of the blocks of a list, zero for the empty list. -/
def largest_size (blocks : List block) : Nat :=
  (blocks.map block.size).foldr max 0

/-- Modelled from the spec: invariant 1 of a free list (for members `a` before `b`,
`a.pointer + a.size ≤ b.pointer`), for blocks that are non-null ranges of the 64-bit address
space. -/
def free_list_wf (blocks : List block) : Prop :=
  blocks.Pairwise (fun a b => a.pointer + a.size ≤ b.pointer)
    ∧ ∀ b ∈ blocks, 0 < b.pointer ∧ b.pointer + b.size ≤ size_t_range

/-- Modelled from the spec: the invariants of a free list as the specification words them:
every block has a positive size; for members `a` before `b`, `a.pointer + a.size ≤ b.pointer`
(invariant 1); and a block that starts where an earlier one ends is a head block
(invariant 2). -/
def free_list_invariant (blocks : List block) : Prop :=
  (∀ b ∈ blocks, 0 < b.size)
    ∧ blocks.Pairwise (fun a b => a.pointer + a.size ≤ b.pointer)
    ∧ blocks.Pairwise (fun a b => a.pointer + a.size = b.pointer → b.is_head = true)

/-- A list of two head blocks of `2 ^ 63` bytes each, the first at address 256 and the second
where the first ends. -/
def two_half_space_blocks : List block :=
  [⟨256, size_t_range / 2, true⟩, ⟨256 + size_t_range / 2, size_t_range / 2, true⟩]

/-! ## An upstream resource that records the calls it receives -/

/-- The upstream resource `up` together with the record that it keeps itself of the calls it
receives: each `allocate`, with its byte count and its result, and each `deallocate`, with its
pointer and byte count, is appended to the record and passed on to `up`. This is the counting
upstream of a test that compares the allocations and the deallocations that upstream saw. -/
def recording (up : upstream_resource σ) : upstream_resource (σ × List upstream_call) where
  allocate := fun s bytes =>
    ((up.allocate s.1 bytes).1,
      ((up.allocate s.1 bytes).2, s.2 ++ [.allocate bytes (up.allocate s.1 bytes).1]))
  deallocate := fun s ptr bytes =>
    (up.deallocate s.1 ptr bytes, s.2 ++ [.deallocate ptr bytes])
  supports_get_mem_info := up.supports_get_mem_info
  get_mem_info := fun s => up.get_mem_info s.1
  throws_std_exception := fun s bytes => up.throws_std_exception s.1 bytes

/-- The pool built with initial size 256 and maximum size 1024 over a recording simulated
upstream of 4096 bytes, as the constructor leaves it. -/
def recorded_small_pool : pool_memory_resource (simulated_memory_resource × List upstream_call) :=
  { upstream_mr_ := ({ begin_ := 512, end_ := 4352 }, [.allocate 256 (some 256)])
    current_pool_size_ := 256
    maximum_pool_size_ := some 1024
    upstream_blocks_ := [⟨256, 256, true⟩]
    upstream_calls := [.allocate 256 (some 256)]
    inserted_blocks := [(⟨256, 256, true⟩, cuda_stream_legacy)] }

/-! ## A pool that holds two blocks of half the address space -/

/-- The pool built with initial size `2 ^ 63` and no maximum over a scripted upstream that
grants its first request at address 4096 and its second at address 8192, as the constructor
leaves it. -/
def half_space_pool : pool_memory_resource (List (Option Nat)) :=
  { upstream_mr_ := [some 8192]
    current_pool_size_ := size_t_range / 2
    maximum_pool_size_ := none
    upstream_blocks_ := [⟨4096, size_t_range / 2, true⟩]
    upstream_calls := [.allocate (size_t_range / 2) (some 4096)]
    inserted_blocks := [(⟨4096, size_t_range / 2, true⟩, cuda_stream_legacy)] }

/-! ## Lemmas on the ledger -/

theorem emplace_snd_pointer (ledger : List block) (b : block) :
    (emplace ledger b).2.pointer = b.pointer := by
  induction ledger with
  | nil => rfl
  | cons x xs ih =>
    unfold emplace
    split
    · rfl
    · split
      · exact ih
      · show x.pointer = b.pointer
        omega

theorem ledger_contains_iff (ledger : List block) (ptr : Nat) :
    ledger_contains ledger ptr = true ↔ ∃ x ∈ ledger, x.pointer = ptr := by
  simp [ledger_contains, List.any_eq_true]

theorem ledger_contains_false_iff (ledger : List block) (ptr : Nat) :
    ledger_contains ledger ptr = false ↔ ∀ x ∈ ledger, x.pointer ≠ ptr := by
  rw [← Bool.not_eq_true, ledger_contains_iff]
  simp

theorem emplace_fresh (ledger : List block) (b : block)
    (h : ledger_contains ledger b.pointer = false) :
    (emplace ledger b).2 = b ∧ List.Perm (emplace ledger b).1 (b :: ledger) := by
  induction ledger with
  | nil => exact ⟨rfl, List.Perm.refl _⟩
  | cons x xs ih =>
    rw [ledger_contains_false_iff] at h
    have hx : x.pointer ≠ b.pointer := h x (List.mem_cons_self _ _)
    have hxs : ledger_contains xs b.pointer = false := by
      rw [ledger_contains_false_iff]
      intro y hy
      exact h y (List.mem_cons_of_mem _ hy)
    unfold emplace
    split
    · exact ⟨rfl, List.Perm.refl _⟩
    · split
      · refine ⟨(ih hxs).1, ?_⟩
        exact ((ih hxs).2.cons x).trans (List.Perm.swap b x xs)
      · exfalso; omega

theorem ledger_total_perm {l₁ l₂ : List block} (h : List.Perm l₁ l₂) :
    ledger_total l₁ = ledger_total l₂ := by
  unfold ledger_total
  exact (h.map block.size).sum_eq

/-! ## Lemmas on the back-off sequence -/

theorem halving_shift (t m i : Nat) :
    halving t m (i + 1) = halving (max m (t / 2)) m i := by
  induction i with
  | zero => rfl
  | succ i ih =>
    show max m (halving t m (i + 1) / 2) = max m (halving (max m (t / 2)) m i / 2)
    rw [ih]

theorem upstream_after_shift (up : upstream_resource σ) (u : σ) (t m i : Nat) :
    upstream_after up u t m (i + 1)
      = upstream_after up (upstream_after up u t m 1) (max m (t / 2)) m i := by
  induction i with
  | zero => rfl
  | succ i ih =>
    show (if halving t m (i + 1) = 0 then upstream_after up u t m (i + 1)
        else (up.allocate (upstream_after up u t m (i + 1)) (halving t m (i + 1))).2) = _
    rw [ih, halving_shift]
    rfl

theorem refused_state_shift (up : upstream_resource σ) (p : pool_memory_resource σ)
    (t m k : Nat) :
    refused_state up (refused_state up p t m 1) (max m (t / 2)) m k
      = refused_state up p t m (k + 1) := by
  simp only [refused_state, upstream_after_shift up p.upstream_mr_ t m k, refusal_calls,
    List.append_nil, List.append_assoc]

theorem refused_state_zero (up : upstream_resource σ) (p : pool_memory_resource σ)
    (t m : Nat) : refused_state up p t m 0 = p := by
  simp [refused_state, refusal_calls, upstream_after]

theorem halving_ge (t m : Nat) (h : m ≤ t) (i : Nat) : m ≤ halving t m i := by
  cases i with
  | zero => exact h
  | succ i => exact Nat.le_max_left _ _

theorem halving_le (t m : Nat) (h : m ≤ t) (i : Nat) : halving t m i ≤ t := by
  induction i with
  | zero => exact Nat.le_refl _
  | succ i ih =>
    show max m (halving t m i / 2) ≤ t
    exact Nat.max_le.mpr ⟨h, Nat.le_trans (Nat.div_le_self _ _) ih⟩

/-! ## Lemmas on block_from_upstream and try_to_expand -/

theorem absorbed_refuses (up : upstream_resource σ) (u : σ) (t : Nat) (h : absorbed up u t) :
    refuses up u t := by
  rcases h with h | h
  · exact Or.inl h
  · exact Or.inr h.1

theorem block_from_upstream_refused (up : upstream_resource σ) (p : pool_memory_resource σ)
    (t m : Nat) (h : absorbed up p.upstream_mr_ t) :
    block_from_upstream up p t = (.ok none, refused_state up p t m 1) := by
  unfold block_from_upstream
  by_cases h0 : t = 0
  · subst h0
    simp [refused_state, refusal_calls, upstream_after, halving]
  · have hn : (up.allocate p.upstream_mr_ t).1 = none
        ∧ up.throws_std_exception p.upstream_mr_ t = true := by
      rcases h with h | h
      · exact absurd h h0
      · exact h
    simp [h0, hn.1, hn.2, refused_state, refusal_calls, upstream_after, halving]

theorem block_from_upstream_propagates (up : upstream_resource σ) (p : pool_memory_resource σ)
    (t m : Nat) (h : propagates up p.upstream_mr_ t) :
    block_from_upstream up p t = (.error .upstream_exception, refused_state up p t m 1) := by
  unfold block_from_upstream
  simp [h.1, h.2.1, h.2.2, refused_state, refusal_calls, upstream_after, halving]

theorem block_from_upstream_granted (up : upstream_resource σ) (p : pool_memory_resource σ)
    (t ptr : Nat) (h0 : t ≠ 0) (h : (up.allocate p.upstream_mr_ t).1 = some ptr) :
    block_from_upstream up p t
      = (.ok (some (emplace p.upstream_blocks_ ⟨ptr, t, true⟩).2),
          { p with
            upstream_mr_ := (up.allocate p.upstream_mr_ t).2
            upstream_blocks_ := (emplace p.upstream_blocks_ ⟨ptr, t, true⟩).1
            upstream_calls := p.upstream_calls ++ [upstream_call.allocate t (some ptr)] }) := by
  unfold block_from_upstream
  simp [h0, h]

theorem not_refuses (up : upstream_resource σ) (u : σ) (t : Nat) (h : ¬ refuses up u t) :
    t ≠ 0 ∧ ∃ ptr, (up.allocate u t).1 = some ptr := by
  unfold refuses at h
  push_neg at h
  refine ⟨h.1, ?_⟩
  cases hr : (up.allocate u t).1 with
  | none => exact absurd hr h.2
  | some ptr => exact ⟨ptr, rfl⟩

theorem refuses_cases (up : upstream_resource σ) (u : σ) (t : Nat) (h : refuses up u t) :
    absorbed up u t ∨ propagates up u t := by
  by_cases h0 : t = 0
  · exact Or.inl (Or.inl h0)
  · have hn : (up.allocate u t).1 = none := by
      rcases h with h | h
      · exact absurd h h0
      · exact h
    cases hs : up.throws_std_exception u t with
    | true => exact Or.inl (Or.inr ⟨hn, hs⟩)
    | false => exact Or.inr ⟨h0, hn, hs⟩

/-- The loop of `try_to_expand` has the first `k` sizes of the halving sequence refused with an
exception it absorbs, none of them being `min_size`, and then either has `min_size` refused in
that way and raises `out_of_memory`, or is granted the next size and returns the emplaced
block, or meets an exception that is not a `std::exception`, which leaves the loop at once. -/
theorem try_to_expand_loop_spec (up : upstream_resource σ) :
    ∀ (fuel : Nat) (p : pool_memory_resource σ) (t m : Nat) (h : t - m < fuel), m ≤ t →
    ∃ k,
      (∀ j, j < k → halving t m j ≠ m
        ∧ absorbed up (upstream_after up p.upstream_mr_ t m j) (halving t m j)) ∧
      ((halving t m k = m ∧ absorbed up (upstream_after up p.upstream_mr_ t m k) m ∧
          try_to_expand_loop up fuel p t m h
            = (.error .out_of_memory, refused_state up p t m (k + 1)))
        ∨ (∃ ptr, halving t m k ≠ 0 ∧
          (up.allocate (upstream_after up p.upstream_mr_ t m k) (halving t m k)).1 = some ptr ∧
          try_to_expand_loop up fuel p t m h
            = (.ok (emplace p.upstream_blocks_ ⟨ptr, halving t m k, true⟩).2,
                granted_state up (refused_state up p t m k) (halving t m k) ptr))
        ∨ (propagates up (upstream_after up p.upstream_mr_ t m k) (halving t m k) ∧
          try_to_expand_loop up fuel p t m h
            = (.error .upstream_exception, refused_state up p t m (k + 1)))) := by
  intro fuel
  induction fuel with
  | zero => intro p t m h; exact absurd h (Nat.not_lt_zero _)
  | succ fuel ih =>
    intro p t m h hge
    rw [try_to_expand_loop]
    simp only [hge, dite_true]
    by_cases hr : refuses up p.upstream_mr_ t
    · rcases refuses_cases up _ _ hr with ha | hpr
      · rw [block_from_upstream_refused up p t m ha]
        by_cases hne : t = m
        · refine ⟨0, fun j hj => absurd hj (Nat.not_lt_zero _), Or.inl ⟨hne, ?_, ?_⟩⟩
          · rw [← hne]; exact ha
          · simp [hne]
        · have hlt : max m (t / 2) - m < fuel := by
            rcases Nat.le_total m (t / 2) with hm | hm
            · rw [Nat.max_eq_right hm]; omega
            · rw [Nat.max_eq_left hm]; omega
          obtain ⟨k, hk, hres⟩ := ih (refused_state up p t m 1) (max m (t / 2)) m hlt
            (Nat.le_max_left _ _)
          have hu : (refused_state up p t m 1).upstream_mr_
              = upstream_after up p.upstream_mr_ t m 1 := rfl
          have hl : (refused_state up p t m 1).upstream_blocks_ = p.upstream_blocks_ := rfl
          simp only [hu, ← upstream_after_shift, ← halving_shift, refused_state_shift, hl]
            at hk hres
          refine ⟨k + 1, ?_, ?_⟩
          · intro j hj
            cases j with
            | zero => exact ⟨hne, ha⟩
            | succ j => exact hk j (by omega)
          · simp only [hne, dite_false]
            exact hres
      · refine ⟨0, fun j hj => absurd hj (Nat.not_lt_zero _), Or.inr (Or.inr ⟨hpr, ?_⟩)⟩
        rw [block_from_upstream_propagates up p t m hpr]
    · obtain ⟨h0, ptr, hp⟩ := not_refuses up _ _ hr
      refine ⟨0, fun j hj => absurd hj (Nat.not_lt_zero _), Or.inr (Or.inl ⟨ptr, h0, hp, ?_⟩)⟩
      rw [block_from_upstream_granted up p t ptr h0 hp]
      simp [refused_state_zero, granted_state, halving]

theorem try_to_expand_below_min (up : upstream_resource σ) (p : pool_memory_resource σ)
    (t m : Nat) (h : t < m) : try_to_expand up p t m = (.error .out_of_memory, p) := by
  have h1 : t - m + 1 = 0 + 1 := by omega
  have h2 : ¬ m ≤ t := by omega
  unfold try_to_expand
  rw [try_to_expand_loop.eq_def]
  split
  · omega
  · simp [h2]

/-- The cases of `try_to_expand` from `min_size ≤ try_size`: `k` absorbed refusals followed by
the absorbed refusal of `min_size`, by a grant, or by an exception that is not a
`std::exception` and leaves the call. -/
theorem try_to_expand_spec (up : upstream_resource σ) (p : pool_memory_resource σ)
    (t m : Nat) (hge : m ≤ t) :
    ∃ k,
      (∀ j, j < k → halving t m j ≠ m
        ∧ absorbed up (upstream_after up p.upstream_mr_ t m j) (halving t m j)) ∧
      ((halving t m k = m ∧ absorbed up (upstream_after up p.upstream_mr_ t m k) m ∧
          try_to_expand up p t m = (.error .out_of_memory, refused_state up p t m (k + 1)))
        ∨ (∃ ptr, halving t m k ≠ 0 ∧
          (up.allocate (upstream_after up p.upstream_mr_ t m k) (halving t m k)).1 = some ptr ∧
          try_to_expand up p t m
            = (.ok (emplace p.upstream_blocks_ ⟨ptr, halving t m k, true⟩).2,
                granted_state up (refused_state up p t m k) (halving t m k) ptr))
        ∨ (propagates up (upstream_after up p.upstream_mr_ t m k) (halving t m k) ∧
          try_to_expand up p t m
            = (.error .upstream_exception, refused_state up p t m (k + 1)))) :=
  try_to_expand_loop_spec up _ p t m _ hge

/-! ## The claims -/

/-- C1 (defect in the code): a pool with maximum size 1024 and initial size 256 over a simulated
upstream grows to 640 bytes on `expand_pool(256)` and then to 1152 bytes on `expand_pool(512)`,
so `pool_size()` exceeds `maximum_pool_size`. -/
theorem C1_pool_size_exceeds_maximum :
    pool_memory_resource.new simulated_upstream (0, 0) (some (simulated_memory_resource.new 4096))
        (some 256) (some 1024) = .ok small_pool
      ∧ small_pool.maximum_pool_size_ = some 1024
      ∧ pool_size small_pool = 256
      ∧ pool_size (run_ops simulated_upstream small_pool [.expand_pool 256]) = 640
      ∧ (expand_pool simulated_upstream
          (run_ops simulated_upstream small_pool [.expand_pool 256]) 512).1
          = .ok ⟨896, 512, true⟩
      ∧ pool_size (run_ops simulated_upstream small_pool [.expand_pool 256, .expand_pool 512])
          = 1152
      ∧ ¬ (pool_size (run_ops simulated_upstream small_pool [.expand_pool 256, .expand_pool 512])
          ≤ 1024) := by
  refine ⟨rfl, rfl, rfl, rfl, rfl, rfl, ?_⟩
  decide

/-- C2 (defect in the code): with maximum size 1024 and pool size 640, the remaining 384 bytes
are rounded up to 512, so `size_to_grow(512)` is 512 although the aligned size 512 exceeds
`maximum - current = 384`, where the result should be zero. -/
theorem C2_size_to_grow_rounds_remaining_up :
    (run_ops simulated_upstream small_pool [.expand_pool 256]).maximum_pool_size_ = some 1024
      ∧ pool_size (run_ops simulated_upstream small_pool [.expand_pool 256]) = 640
      ∧ align_up 512 CUDA_ALLOCATION_ALIGNMENT = 512
      ∧ 512 > 1024 - 640
      ∧ size_to_grow (run_ops simulated_upstream small_pool [.expand_pool 256]) 512 = 512
      ∧ size_to_grow (run_ops simulated_upstream small_pool [.expand_pool 256]) 512
          ≠ 0 := by
  refine ⟨rfl, rfl, rfl, ?_, rfl, ?_⟩ <;> decide

/-- C3 (the claim fails): in scenario 2 the request of 2 MiB does not expand the pool: there is
no block that `expand_pool(2 MiB)` returns, and the pool size is not 2 MiB afterwards. -/
theorem C3_scenario_expand_fails :
    ¬ ((∃ b, (expand_pool simulated_upstream
            (run_ops simulated_upstream scenario_pool scenario_allocations) (2 * MiB)).1 = .ok b)
        ∧ pool_size (expand_pool simulated_upstream
            (run_ops simulated_upstream scenario_pool scenario_allocations) (2 * MiB)).2
          = 2 * MiB) := by
  rintro ⟨⟨b, hb⟩, -⟩
  have h : (expand_pool simulated_upstream
      (run_ops simulated_upstream scenario_pool scenario_allocations) (2 * MiB)).1
      = .error .out_of_memory := rfl
  rw [h] at hb
  exact Except.noConfusion hb

/-- C3 (amended): the pool of the scenario is what the constructor builds from initial size
1 MiB and maximum size 2 MiB over a simulated upstream of 4 MiB; after the two allocations of
512 KiB, `expand_pool(2 MiB)` raises `out_of_memory` (`size_to_grow` is zero, the remaining
1 MiB being too small), makes no upstream call and leaves `pool_size()` at 1 MiB; it is
`expand_pool(1 MiB)` that succeeds and brings `pool_size()` to 2 MiB. -/
theorem C3_scenario_expand_amended :
    pool_memory_resource.new simulated_upstream (0, 0)
        (some (simulated_memory_resource.new (4 * MiB))) (some MiB) (some (2 * MiB))
        = .ok scenario_pool
      ∧ (allocate_from_block scenario_pool ⟨0x100, MiB, true⟩ (512 * KiB)).1
          = (⟨0x100, 512 * KiB, true⟩, ⟨0x100 + 512 * KiB, 512 * KiB, false⟩)
      ∧ (allocate_from_block scenario_pool ⟨0x100 + 512 * KiB, 512 * KiB, false⟩ (512 * KiB)).1
          = (⟨0x100 + 512 * KiB, 512 * KiB, false⟩, block.empty)
      ∧ run_ops simulated_upstream scenario_pool scenario_allocations = scenario_pool
      ∧ size_to_grow scenario_pool (2 * MiB) = 0
      ∧ expand_pool simulated_upstream
          (run_ops simulated_upstream scenario_pool scenario_allocations) (2 * MiB)
          = (.error .out_of_memory, scenario_pool)
      ∧ pool_size scenario_pool = MiB
      ∧ (expand_pool simulated_upstream
          (run_ops simulated_upstream scenario_pool scenario_allocations) MiB).1
          = .ok ⟨0x100 + MiB, MiB, true⟩
      ∧ pool_size (expand_pool simulated_upstream
          (run_ops simulated_upstream scenario_pool scenario_allocations) MiB).2 = 2 * MiB := by
  refine ⟨rfl, rfl, rfl, rfl, rfl, rfl, rfl, rfl, rfl⟩

/-- C5: when `try_to_expand(try_size, min_size)` succeeds and the pointer of the returned block
was not in the ledger before the call, the block is a head block whose size is the first size
of the halving sequence that upstream granted (all earlier sizes were refused), at the pointer
upstream returned; its size is at least `min_size` and at most `try_size`. `expand_pool(size)`
is `try_to_expand(size_to_grow(size), size)`. -/
theorem C5_try_to_expand_returns_first_granted (up : upstream_resource σ)
    (p p' : pool_memory_resource σ) (t m : Nat) (b : block)
    (h : try_to_expand up p t m = (.ok b, p'))
    (hfresh : ledger_contains p.upstream_blocks_ b.pointer = false) :
    b.is_head = true ∧ m ≤ b.size ∧ b.size ≤ t
    ∧ (∃ k, b.size = halving t m k ∧ b.size ≠ 0
        ∧ (∀ j, j < k →
            refuses up (upstream_after up p.upstream_mr_ t m j) (halving t m j))
        ∧ (up.allocate (upstream_after up p.upstream_mr_ t m k) (halving t m k)).1
            = some b.pointer)
    ∧ (∀ size, expand_pool up p size = try_to_expand up p (size_to_grow p size) size) := by
  have hge : m ≤ t := by
    by_contra hlt
    rw [try_to_expand_below_min up p t m (by omega)] at h
    injection h with h1 _
    exact Except.noConfusion h1
  obtain ⟨k, hk, hres⟩ := try_to_expand_spec up p t m hge
  rcases hres with ⟨_, _, heq⟩ | ⟨ptr, h0, hp, heq⟩ | ⟨_, heq⟩
  · rw [heq] at h
    injection h with h1 _
    exact Except.noConfusion h1
  · rw [heq] at h
    injection h with h1 _
    injection h1 with h1
    have hptr : b.pointer = ptr := by
      rw [← h1]
      exact emplace_snd_pointer _ _
    have hb : b = ⟨ptr, halving t m k, true⟩ := by
      rw [← h1]
      apply (emplace_fresh p.upstream_blocks_ ⟨ptr, halving t m k, true⟩ _).1
      rw [← hptr]
      exact hfresh
    have hsize : b.size = halving t m k := by rw [hb]
    refine ⟨by rw [hb], ?_, ?_,
      ⟨k, hsize, ?_, fun j hj => absorbed_refuses up _ _ (hk j hj).2, ?_⟩, fun _ => rfl⟩
    · rw [hsize]; exact halving_ge t m hge k
    · rw [hsize]; exact halving_le t m hge k
    · rw [hsize]; exact h0
    · rw [hptr]; exact hp
  · rw [heq] at h
    injection h with h1 _
    exact Except.noConfusion h1

/-- C5 (instance): a scripted upstream refuses 1024 bytes and grants 512 bytes at address 4096;
`try_to_expand(1024, 256)` returns the head block of 512 bytes. -/
theorem C5_try_to_expand_returns_first_granted_witness :
    try_to_expand scripted_upstream (empty_pool [none, some 4096] none) 1024 256
        = (.ok ⟨4096, 512, true⟩,
            (try_to_expand scripted_upstream (empty_pool [none, some 4096] none) 1024 256).2)
      ∧ ledger_contains (empty_pool [none, some 4096] none).upstream_blocks_
          (⟨4096, 512, true⟩ : block).pointer = false
      ∧ ((⟨4096, 512, true⟩ : block).is_head = true
        ∧ 256 ≤ (⟨4096, 512, true⟩ : block).size ∧ (⟨4096, 512, true⟩ : block).size ≤ 1024) :=
  have w := C5_try_to_expand_returns_first_granted scripted_upstream
    (empty_pool [none, some 4096] none)
    (try_to_expand scripted_upstream (empty_pool [none, some 4096] none) 1024 256).2
    1024 256 ⟨4096, 512, true⟩ rfl rfl
  ⟨rfl, rfl, w.1, w.2.1, w.2.2.1⟩

/-! ### The pool size and the ledger -/

theorem try_to_expand_preserves_total (up : upstream_resource σ) (p : pool_memory_resource σ)
    (t m : Nat)
    (hinv : p.current_pool_size_ = ledger_total p.upstream_blocks_ % size_t_range)
    (hfresh : ∀ b, (try_to_expand up p t m).1 = .ok b →
      ledger_contains p.upstream_blocks_ b.pointer = false) :
    (try_to_expand up p t m).2.current_pool_size_
      = ledger_total (try_to_expand up p t m).2.upstream_blocks_ % size_t_range := by
  by_cases hlt : t < m
  · rw [try_to_expand_below_min up p t m hlt]
    exact hinv
  · obtain ⟨k, _, hres⟩ := try_to_expand_spec up p t m (by omega)
    rcases hres with ⟨_, _, heq⟩ | ⟨ptr, _, _, heq⟩ | ⟨_, heq⟩
    · rw [heq]
      exact hinv
    · have hf := hfresh _ (by rw [heq])
      rw [emplace_snd_pointer] at hf
      obtain ⟨hb, hperm⟩ := emplace_fresh p.upstream_blocks_ ⟨ptr, halving t m k, true⟩ hf
      rw [heq]
      show (p.current_pool_size_ + (emplace p.upstream_blocks_ ⟨ptr, halving t m k, true⟩).2.size)
          % size_t_range
        = ledger_total (emplace p.upstream_blocks_ ⟨ptr, halving t m k, true⟩).1 % size_t_range
      rw [hb, ledger_total_perm hperm, hinv]
      show (ledger_total p.upstream_blocks_ % size_t_range + halving t m k) % size_t_range
        = (halving t m k + ledger_total p.upstream_blocks_) % size_t_range
      rw [Nat.mod_add_mod, Nat.add_comm]
    · rw [heq]
      exact hinv

theorem initialize_pool_total (up : upstream_resource σ) (dm : Nat × Nat)
    (p : pool_memory_resource σ) (initial maximum : Option Nat)
    (hl : p.upstream_blocks_ = []) :
    (initialize_pool up dm p initial maximum).2.current_pool_size_
      = ledger_total (initialize_pool up dm p initial maximum).2.upstream_blocks_
          % size_t_range := by
  have hz : (0 : Nat) = ledger_total p.upstream_blocks_ % size_t_range := by
    rw [hl]; rfl
  unfold initialize_pool
  simp only []
  generalize initial_try_size up dm p.upstream_mr_ initial = ts
  have key := try_to_expand_preserves_total up
    { p with current_pool_size_ := 0, maximum_pool_size_ := maximum } ts ts hz
    (by intro b _; show ledger_contains p.upstream_blocks_ b.pointer = false; rw [hl]; rfl)
  by_cases h1 : ts ≤ maximum.getD SIZE_MAX
  · by_cases h2 : ts > 0
    · simp only [h1, h2, if_true]
      split
      · exact key
      · exact key
    · simp only [h1, h2, if_true, if_false]
      exact hz
  · simp only [h1, if_false]
    exact hz

theorem new_total (up : upstream_resource σ) (dm : Nat × Nat) (upstream_mr : Option σ)
    (initial maximum : Option Nat) (p : pool_memory_resource σ)
    (hnew : pool_memory_resource.new up dm upstream_mr initial maximum = .ok p) :
    p.current_pool_size_ = ledger_total p.upstream_blocks_ % size_t_range := by
  unfold pool_memory_resource.new at hnew
  cases upstream_mr with
  | none => exact Except.noConfusion hnew
  | some u =>
    have hi := initialize_pool_total up dm (empty_pool u none) initial maximum rfl
    simp only [empty_pool] at hi
    simp only [] at hnew
    split at hnew
    · split at hnew
      · split at hnew
        · next q hq =>
          injection hnew with hnew
          rw [hq] at hi
          rw [← hnew]
          exact hi
        · exact Except.noConfusion hnew
      · exact Except.noConfusion hnew
    · exact Except.noConfusion hnew

theorem apply_op_total (up : upstream_resource σ) (p : pool_memory_resource σ) (op : pool_op)
    (hinv : p.current_pool_size_ = ledger_total p.upstream_blocks_ % size_t_range)
    (hfresh : op_fresh up p op = true) :
    (apply_op up p op).current_pool_size_
      = ledger_total (apply_op up p op).upstream_blocks_ % size_t_range := by
  cases op with
  | expand_pool size =>
    apply try_to_expand_preserves_total up p _ _ hinv
    intro b hb
    have hb' : (expand_pool up p size).1 = .ok b := hb
    simp only [op_fresh, hb'] at hfresh
    simpa using hfresh
  | free_block ptr size => exact hinv
  | allocate_from_block b size => exact hinv
  | release => rfl

theorem run_ops_total (up : upstream_resource σ) (ops : List pool_op) :
    ∀ p : pool_memory_resource σ,
      p.current_pool_size_ = ledger_total p.upstream_blocks_ % size_t_range →
      ops_fresh up p ops = true →
      (run_ops up p ops).current_pool_size_
        = ledger_total (run_ops up p ops).upstream_blocks_ % size_t_range := by
  induction ops with
  | nil => intro p hinv _; exact hinv
  | cons op ops ih =>
    intro p hinv hfresh
    simp only [ops_fresh, Bool.and_eq_true] at hfresh
    exact ih (apply_op up p op) (apply_op_total up p op hinv hfresh.1) hfresh.2

/-- C7 (the claim fails): a scripted upstream returns address 4096 for a request of 256 bytes
and again for a request of 512 bytes. The second success inserts nothing in the ledger, the
block handed back is the old `(4096, 256, true)` and `pool_size()` grows by 256, not by 512. -/
theorem C7_duplicate_pointer_not_inserted :
    try_to_expand scripted_upstream (empty_pool [some 4096, some 4096] none) 256 256
        = (.ok ⟨4096, 256, true⟩, duplicate_pool)
      ∧ (try_to_expand scripted_upstream duplicate_pool 512 512).2.upstream_calls
          = duplicate_pool.upstream_calls ++ [.allocate 512 (some 4096)]
      ∧ (try_to_expand scripted_upstream duplicate_pool 512 512).1 = .ok ⟨4096, 256, true⟩
      ∧ (try_to_expand scripted_upstream duplicate_pool 512 512).1 ≠ .ok ⟨4096, 512, true⟩
      ∧ (⟨4096, 512, true⟩ : block)
          ∉ (try_to_expand scripted_upstream duplicate_pool 512 512).2.upstream_blocks_
      ∧ pool_size (try_to_expand scripted_upstream duplicate_pool 512 512).2
          = pool_size duplicate_pool + 256
      ∧ pool_size (try_to_expand scripted_upstream duplicate_pool 512 512).2
          ≠ pool_size duplicate_pool + 512 := by
  refine ⟨rfl, rfl, rfl, ?_, ?_, rfl, ?_⟩
  · intro h
    rw [show (try_to_expand scripted_upstream duplicate_pool 512 512).1
      = .ok ⟨4096, 256, true⟩ from rfl] at h
    injection h with h
    exact absurd h (by decide)
  · decide
  · decide

theorem refusal_calls_all_refused (m : Nat) (k : Nat) :
    ∀ t c, c ∈ refusal_calls m t k → ∃ n, 0 < n ∧ c = upstream_call.allocate n none := by
  induction k with
  | zero => intro t c hc; simp [refusal_calls] at hc
  | succ k ih =>
    intro t c hc
    rw [refusal_calls, List.mem_append] at hc
    rcases hc with hc | hc
    · by_cases h0 : t = 0
      · simp [h0] at hc
      · simp only [h0, if_false, List.mem_singleton] at hc
        exact ⟨t, Nat.pos_of_ne_zero h0, hc⟩
    · exact ih _ c hc

/-- C7 (amended): when `try_to_expand` succeeds, its upstream calls are refusals followed by
one successful allocation, of `n > 0` bytes at pointer `ptr`; if `ptr` was not in the ledger
before the call, the block handed back is exactly `(ptr, n, true)`, the ledger afterwards is
the old ledger with that block inserted, and `pool_size()` has grown by exactly `n` (as a
`std::size_t` addition). -/
theorem C7_granted_block_inserted (up : upstream_resource σ) (p p' : pool_memory_resource σ)
    (t m : Nat) (b : block)
    (h : try_to_expand up p t m = (.ok b, p'))
    (hfresh : ledger_contains p.upstream_blocks_ b.pointer = false) :
    ∃ n refused, 0 < n
      ∧ p'.upstream_calls
          = p.upstream_calls ++ refused ++ [.allocate n (some b.pointer)]
      ∧ (∀ c ∈ refused, ∃ s, 0 < s ∧ c = upstream_call.allocate s none)
      ∧ b = ⟨b.pointer, n, true⟩
      ∧ b ∈ p'.upstream_blocks_
      ∧ List.Perm p'.upstream_blocks_ (b :: p.upstream_blocks_)
      ∧ p'.upstream_blocks_ = (emplace p.upstream_blocks_ b).1
      ∧ pool_size p' = (pool_size p + n) % size_t_range := by
  have hge : m ≤ t := by
    by_contra hlt
    rw [try_to_expand_below_min up p t m (by omega)] at h
    injection h with h1 _
    exact Except.noConfusion h1
  obtain ⟨k, hk, hres⟩ := try_to_expand_spec up p t m hge
  rcases hres with ⟨_, _, heq⟩ | ⟨ptr, h0, hp, heq⟩ | ⟨_, heq⟩
  rotate_left
  rotate_left
  · rw [heq] at h
    injection h with h1 _
    exact Except.noConfusion h1
  · rw [heq] at h
    injection h with h1 _
    exact Except.noConfusion h1
  · rw [heq] at h
    injection h with h1 h2
    injection h1 with h1
    have hptr : b.pointer = ptr := by
      rw [← h1]
      exact emplace_snd_pointer _ _
    have hf : ledger_contains p.upstream_blocks_ (⟨ptr, halving t m k, true⟩ : block).pointer
        = false := by
      rw [← hptr]
      exact hfresh
    obtain ⟨hb, hperm⟩ := emplace_fresh p.upstream_blocks_ ⟨ptr, halving t m k, true⟩ hf
    have hbe : b = ⟨ptr, halving t m k, true⟩ := by rw [← h1]; exact hb
    have hl : p'.upstream_blocks_ = (emplace p.upstream_blocks_ b).1 := by
      rw [← h2, hbe]
      rfl
    refine ⟨halving t m k, refusal_calls m t k, Nat.pos_of_ne_zero h0, ?_,
      refusal_calls_all_refused m k t, ?_, ?_, ?_, hl, ?_⟩
    · rw [← h2, hptr]
      rfl
    · rw [hbe]
    · rw [hl, hbe]
      exact hperm.mem_iff.mpr (List.mem_cons_self _ _)
    · rw [hl, hbe]
      exact hperm
    · rw [← h2]
      show (p.current_pool_size_ + (emplace p.upstream_blocks_ ⟨ptr, halving t m k, true⟩).2.size)
          % size_t_range = _
      rw [hb]
      rfl

/-- C7 (instance): a scripted upstream refuses 1024 bytes and grants 512 bytes at the fresh
address 4096; the pool grows from 0 to 512 bytes and the ledger holds `(4096, 512, true)`. -/
theorem C7_granted_block_inserted_witness :
    try_to_expand scripted_upstream (empty_pool [none, some 4096] none) 1024 256
        = (.ok ⟨4096, 512, true⟩,
            (try_to_expand scripted_upstream (empty_pool [none, some 4096] none) 1024 256).2)
      ∧ ledger_contains (empty_pool [none, some 4096] none).upstream_blocks_
          (⟨4096, 512, true⟩ : block).pointer = false
      ∧ (try_to_expand scripted_upstream (empty_pool [none, some 4096] none) 1024
            256).2.upstream_blocks_
          = (emplace (empty_pool [none, some 4096] none).upstream_blocks_ ⟨4096, 512, true⟩).1 :=
  have w := C7_granted_block_inserted scripted_upstream
    (empty_pool [none, some 4096] none)
    (try_to_expand scripted_upstream (empty_pool [none, some 4096] none) 1024 256).2
    1024 256 ⟨4096, 512, true⟩ rfl rfl
  ⟨rfl, rfl, w.choose_spec.choose_spec.2.2.2.2.2.2.1⟩

/-- C8: for every block `(p, S, h)` and every size `s` with `0 < s ≤ S`, `allocate_from_block`
returns the piece `(p, s, h)` together with the remainder `(p + s, S - s, false)` when `s < S`
and with the empty sentinel block when `s = S`; the pool object is not modified. The pointer
`p + s` is computed in the 64-bit address space and is the number `p + s` whenever that is an
address; the head flag is kept by the first piece and is never set on the remainder. -/
theorem C8_allocate_from_block_split (p : pool_memory_resource σ) (b : block) (s : Nat)
    (h0 : 0 < s) (_hs : s ≤ b.size) :
    (allocate_from_block p b s).1.1 = ⟨b.pointer, s, b.is_head⟩
      ∧ (s < b.size →
          (allocate_from_block p b s).1.2 = ⟨ptr_add b.pointer s, b.size - s, false⟩)
      ∧ (s < b.size → b.pointer + s < size_t_range →
          (allocate_from_block p b s).1.2 = ⟨b.pointer + s, b.size - s, false⟩)
      ∧ (s = b.size →
          (allocate_from_block p b s).1.2 = block.empty ∧ block.empty.size = 0)
      ∧ (allocate_from_block p b s).1.1.is_head = b.is_head
      ∧ (allocate_from_block p b s).1.2.is_head = false
      ∧ 0 < (allocate_from_block p b s).1.1.size
      ∧ (allocate_from_block p b s).2 = p := by
  refine ⟨rfl, ?_, ?_, ?_, rfl, ?_, h0, rfl⟩
  · intro hlt
    simp [allocate_from_block, hlt]
  · intro hlt hr
    simp [allocate_from_block, hlt, ptr_add, Nat.mod_eq_of_lt hr]
  · intro he
    have : ¬ b.size > s := by omega
    simp [allocate_from_block, this, block.empty]
  · by_cases hlt : b.size > s
    · simp [allocate_from_block, hlt]
    · simp [allocate_from_block, hlt, block.empty]

/-- C8 (instance): splitting 128 bytes off the block `(512, 384, true)` leaves
`(640, 256, false)`. -/
theorem C8_allocate_from_block_split_witness :
    0 < 128 ∧ 128 ≤ (⟨512, 384, true⟩ : block).size
      ∧ (allocate_from_block small_pool ⟨512, 384, true⟩ 128).1.1 = ⟨512, 128, true⟩
      ∧ (allocate_from_block small_pool ⟨512, 384, true⟩ 128).1.2 = ⟨640, 256, false⟩ :=
  have w := C8_allocate_from_block_split small_pool ⟨512, 384, true⟩ 128 (by decide) (by decide)
  ⟨by decide, by decide, w.1, w.2.2.1 (by decide) (by decide)⟩

/-- C9: in the default build `free_block(ptr, size)` returns the block `(ptr, size, is_head)`
where `is_head` is true exactly when the ledger has a block whose pointer is `ptr`; the ledger,
`pool_size()` and the rest of the object are not modified. -/
theorem C9_free_block_head_iff_in_ledger (p : pool_memory_resource σ) (ptr size : Nat) :
    (free_block p ptr size).1.pointer = ptr
      ∧ (free_block p ptr size).1.size = size
      ∧ ((free_block p ptr size).1.is_head = true ↔ ∃ x ∈ p.upstream_blocks_, x.pointer = ptr)
      ∧ (free_block p ptr size).2 = p
      ∧ (free_block p ptr size).2.upstream_blocks_ = p.upstream_blocks_
      ∧ pool_size (free_block p ptr size).2 = pool_size p :=
  ⟨rfl, rfl, ledger_contains_iff p.upstream_blocks_ ptr, rfl, rfl, rfl⟩

/-- C10: for every block `b` whose head flag is correct (true exactly when the ledger has a
block at `b.pointer`) and every size `s` with `0 < s ≤ b.size`, freeing the allocated piece of
`allocate_from_block(b, s)` by its pointer and `s` reconstructs that piece: same pointer, same
size, same head flag. -/
theorem C10_free_block_reconstructs_allocation (p : pool_memory_resource σ) (b : block)
    (s : Nat)
    (hhead : b.is_head = true ↔ ∃ x ∈ p.upstream_blocks_, x.pointer = b.pointer)
    (_h0 : 0 < s) (_hs : s ≤ b.size) :
    (free_block (allocate_from_block p b s).2 (allocate_from_block p b s).1.1.pointer s).1
      = (allocate_from_block p b s).1.1 := by
  show (⟨b.pointer, s, ledger_contains p.upstream_blocks_ b.pointer⟩ : block)
    = ⟨b.pointer, s, b.is_head⟩
  have hb : ledger_contains p.upstream_blocks_ b.pointer = b.is_head := by
    rw [Bool.eq_iff_iff, ledger_contains_iff]
    exact hhead.symm
  rw [hb]

/-- C10 (instance): on a pool whose ledger is the single block `(256, 1024, true)`, the piece of
512 bytes split off that block is reconstructed, head flag included; so is a piece split off
the non-head block `(768, 512, false)`. -/
theorem C10_free_block_reconstructs_allocation_witness :
    ((⟨256, 1024, true⟩ : block).is_head = true
        ↔ ∃ x ∈ one_block_pool.upstream_blocks_, x.pointer = (⟨256, 1024, true⟩ : block).pointer)
      ∧ 0 < 512 ∧ 512 ≤ (⟨256, 1024, true⟩ : block).size
      ∧ (free_block (allocate_from_block one_block_pool ⟨256, 1024, true⟩ 512).2
          (allocate_from_block one_block_pool ⟨256, 1024, true⟩ 512).1.1.pointer 512).1
        = ⟨256, 512, true⟩ :=
  have hh : (⟨256, 1024, true⟩ : block).is_head = true
      ↔ ∃ x ∈ one_block_pool.upstream_blocks_, x.pointer = (⟨256, 1024, true⟩ : block).pointer :=
    ⟨fun _ => ⟨⟨256, 1024, true⟩, List.mem_cons_self _ _, rfl⟩, fun _ => rfl⟩
  ⟨hh, by decide, by decide,
    C10_free_block_reconstructs_allocation one_block_pool ⟨256, 1024, true⟩ 512 hh
      (by decide) (by decide)⟩

/-! ### Growth at the ceiling and without a ceiling -/

theorem try_to_expand_first_granted (up : upstream_resource σ) (p : pool_memory_resource σ)
    (t m ptr : Nat) (hge : m ≤ t) (h0 : t ≠ 0)
    (hp : (up.allocate p.upstream_mr_ t).1 = some ptr) :
    try_to_expand up p t m
      = (.ok (emplace p.upstream_blocks_ ⟨ptr, t, true⟩).2, granted_state up p t ptr) := by
  unfold try_to_expand
  rw [try_to_expand_loop]
  simp only [hge, dite_true]
  rw [block_from_upstream_granted up p t ptr h0 hp]
  simp [granted_state]

theorem try_to_expand_once_refused (up : upstream_resource σ) (p : pool_memory_resource σ)
    (t : Nat) (h : absorbed up p.upstream_mr_ t) :
    try_to_expand up p t t = (.error .out_of_memory, refused_state up p t t 1) := by
  unfold try_to_expand
  rw [try_to_expand_loop]
  simp only [Nat.le_refl, dite_true]
  rw [block_from_upstream_refused up p t t h]

theorem try_to_expand_once_propagates (up : upstream_resource σ)
    (p : pool_memory_resource σ) (t : Nat) (h : propagates up p.upstream_mr_ t) :
    try_to_expand up p t t = (.error .upstream_exception, refused_state up p t t 1) := by
  unfold try_to_expand
  rw [try_to_expand_loop]
  simp only [Nat.le_refl, dite_true]
  rw [block_from_upstream_propagates up p t t h]

theorem size_to_grow_full (p : pool_memory_resource σ) (M size : Nat)
    (hmax : p.maximum_pool_size_ = some M) (hfull : pool_size p = M) :
    size_to_grow p size = 0 := by
  unfold size_to_grow
  rw [hmax]
  simp only [hfull]
  have h1 : (M + size_t_range - M) % size_t_range = 0 := by
    rw [Nat.add_sub_cancel_left]
    exact Nat.mod_self _
  have h2 : align_up 0 CUDA_ALLOCATION_ALIGNMENT = 0 := by decide
  rw [h1, h2]
  split
  · next h =>
    have : align_up size CUDA_ALLOCATION_ALIGNMENT = 0 := Nat.le_zero.mp h
    rw [this]
    rfl
  · rfl

/-- C11: when a maximum is set and `pool_size()` equals it, `expand_pool(size)` raises
`out_of_memory` for every size of at least one byte, and leaves the whole object as it was: no
upstream call is logged, `pool_size()` and the ledger are unchanged. -/
theorem C11_expand_pool_full_fails (up : upstream_resource σ) (p : pool_memory_resource σ)
    (M size : Nat) (hmax : p.maximum_pool_size_ = some M) (hfull : pool_size p = M)
    (hsize : 1 ≤ size) :
    expand_pool up p size = (.error .out_of_memory, p)
      ∧ (expand_pool up p size).2.upstream_calls = p.upstream_calls
      ∧ (expand_pool up p size).2.upstream_mr_ = p.upstream_mr_
      ∧ pool_size (expand_pool up p size).2 = pool_size p
      ∧ (expand_pool up p size).2.upstream_blocks_ = p.upstream_blocks_ := by
  have h : expand_pool up p size = (.error .out_of_memory, p) := by
    unfold expand_pool
    rw [size_to_grow_full p M size hmax hfull]
    exact try_to_expand_below_min up p 0 size (by omega)
  rw [h]
  exact ⟨rfl, rfl, rfl, rfl, rfl⟩

/-- C11 (instance): the scenario pool grown to its ceiling of 2 MiB refuses one more byte. -/
theorem C11_expand_pool_full_fails_witness :
    (expand_pool simulated_upstream scenario_pool MiB).2.maximum_pool_size_ = some (2 * MiB)
      ∧ pool_size (expand_pool simulated_upstream scenario_pool MiB).2 = 2 * MiB
      ∧ 1 ≤ 1
      ∧ expand_pool simulated_upstream (expand_pool simulated_upstream scenario_pool MiB).2 1
        = (.error .out_of_memory, (expand_pool simulated_upstream scenario_pool MiB).2) :=
  ⟨rfl, rfl, Nat.le_refl 1,
    (C11_expand_pool_full_fails simulated_upstream
      (expand_pool simulated_upstream scenario_pool MiB).2 (2 * MiB) 1 rfl rfl
      (Nat.le_refl 1)).1⟩

/-- C12 (the claim fails): without a ceiling, a pool of 512 bytes whose upstream grants the first
request of `expand_pool(256)`, which is for 512 bytes, at an address the ledger already holds
with 256 bytes, grows by 256 bytes only and does not double. -/
theorem C12_growth_not_by_request :
    (run_ops scripted_upstream replay_pool [.expand_pool 256, .expand_pool 256]).maximum_pool_size_
        = none
      ∧ pool_size (run_ops scripted_upstream replay_pool [.expand_pool 256, .expand_pool 256])
          = 512
      ∧ size_to_grow (run_ops scripted_upstream replay_pool [.expand_pool 256, .expand_pool 256])
          256 = 512
      ∧ (expand_pool scripted_upstream
          (run_ops scripted_upstream replay_pool [.expand_pool 256, .expand_pool 256])
          256).2.upstream_calls
        = (run_ops scripted_upstream replay_pool
              [.expand_pool 256, .expand_pool 256]).upstream_calls
            ++ [.allocate 512 (some 4096)]
      ∧ pool_size (expand_pool scripted_upstream
          (run_ops scripted_upstream replay_pool [.expand_pool 256, .expand_pool 256]) 256).2
        = 768
      ∧ 768 ≠ 512 + max 256 512
      ∧ ¬ (2 * 512 ≤ 768) := by
  refine ⟨rfl, rfl, rfl, rfl, rfl, ?_, ?_⟩ <;> decide

/-- C12 (amended): when no maximum is set, `size_to_grow(size)` is `max(size, pool_size())`; if
upstream grants the first request of `expand_pool(size)` at a pointer that the ledger does not
hold, that single upstream call is for `max(size, pool_size())` bytes, the block returned has
that size, and `pool_size()` grows by exactly that much as a `std::size_t` addition: whenever
the sum is below `2 ^ 64` the pool has at least doubled. -/
theorem C12_growth_without_maximum (up : upstream_resource σ) (p : pool_memory_resource σ)
    (size ptr : Nat) (hmax : p.maximum_pool_size_ = none)
    (hgrant : size_to_grow p size ≠ 0
      ∧ (up.allocate p.upstream_mr_ (size_to_grow p size)).1 = some ptr)
    (hfresh : ledger_contains p.upstream_blocks_ ptr = false) :
    (∀ s, size_to_grow p s = max s (pool_size p))
      ∧ (expand_pool up p size).1 = .ok ⟨ptr, max size (pool_size p), true⟩
      ∧ (expand_pool up p size).2.upstream_calls
          = p.upstream_calls ++ [.allocate (max size (pool_size p)) (some ptr)]
      ∧ pool_size (expand_pool up p size).2
          = (pool_size p + max size (pool_size p)) % size_t_range
      ∧ (pool_size p + max size (pool_size p) < size_t_range →
          pool_size (expand_pool up p size).2 = pool_size p + max size (pool_size p)
          ∧ 2 * pool_size p ≤ pool_size (expand_pool up p size).2) := by
  have hs : ∀ s, size_to_grow p s = max s (pool_size p) := by
    intro s
    unfold size_to_grow
    rw [hmax]
  rw [hs] at hgrant
  have hf : ledger_contains p.upstream_blocks_
      (⟨ptr, max size (pool_size p), true⟩ : block).pointer = false := hfresh
  obtain ⟨hb, _⟩ := emplace_fresh p.upstream_blocks_ ⟨ptr, max size (pool_size p), true⟩ hf
  have he : expand_pool up p size
      = (.ok ⟨ptr, max size (pool_size p), true⟩,
          granted_state up p (max size (pool_size p)) ptr) := by
    unfold expand_pool
    rw [hs, try_to_expand_first_granted up p _ size ptr (Nat.le_max_left _ _) hgrant.1 hgrant.2,
      hb]
  have hsz : pool_size (granted_state up p (max size (pool_size p)) ptr)
      = (pool_size p + max size (pool_size p)) % size_t_range := by
    show (p.current_pool_size_
        + (emplace p.upstream_blocks_ ⟨ptr, max size (pool_size p), true⟩).2.size)
        % size_t_range = _
    rw [hb]
    rfl
  rw [he]
  refine ⟨hs, rfl, rfl, hsz, fun hlt => ?_⟩
  rw [hsz, Nat.mod_eq_of_lt hlt]
  refine ⟨rfl, ?_⟩
  have := Nat.le_max_right size (pool_size p)
  omega

/-- C12 (instance): a pool of 1024 bytes without ceiling is asked for 256 bytes more; upstream
grants the first request, of 1024 bytes, at the fresh address 1280, and the pool doubles. -/
theorem C12_growth_without_maximum_witness :
    one_block_pool.maximum_pool_size_ = none
      ∧ (size_to_grow one_block_pool 256 ≠ 0
        ∧ (simulated_upstream.allocate one_block_pool.upstream_mr_
            (size_to_grow one_block_pool 256)).1 = some 1280)
      ∧ ledger_contains one_block_pool.upstream_blocks_ 1280 = false
      ∧ (expand_pool simulated_upstream one_block_pool 256).1 = .ok ⟨1280, 1024, true⟩
      ∧ pool_size (expand_pool simulated_upstream one_block_pool 256).2 = 2048 :=
  have w := C12_growth_without_maximum simulated_upstream one_block_pool 256 1280 rfl
    ⟨by decide, rfl⟩ rfl
  ⟨rfl, ⟨by decide, rfl⟩, rfl, w.2.1, (w.2.2.2.2 (by decide)).1⟩

/-! ### Construction -/

/-- The outcomes of `initialize_pool`, by the value of its local `try_size`. -/
theorem initialize_pool_cases (up : upstream_resource σ) (dm : Nat × Nat)
    (p : pool_memory_resource σ) (initial maximum : Option Nat) :
    (¬ initial_try_size up dm p.upstream_mr_ initial ≤ maximum.getD SIZE_MAX →
        initialize_pool up dm p initial maximum
          = (.error .logic_error,
              { p with current_pool_size_ := 0, maximum_pool_size_ := maximum }))
      ∧ (initial_try_size up dm p.upstream_mr_ initial ≤ maximum.getD SIZE_MAX →
          initial_try_size up dm p.upstream_mr_ initial = 0 →
          initialize_pool up dm p initial maximum
            = (.ok (), { p with current_pool_size_ := 0, maximum_pool_size_ := maximum }))
      ∧ (initial_try_size up dm p.upstream_mr_ initial ≤ maximum.getD SIZE_MAX →
          0 < initial_try_size up dm p.upstream_mr_ initial →
          (up.allocate p.upstream_mr_ (initial_try_size up dm p.upstream_mr_ initial)).1 = none →
          initialize_pool up dm p initial maximum
            = (.error (if up.throws_std_exception p.upstream_mr_
                  (initial_try_size up dm p.upstream_mr_ initial) = true
                then error.out_of_memory else error.upstream_exception),
                refused_state up { p with current_pool_size_ := 0, maximum_pool_size_ := maximum }
                  (initial_try_size up dm p.upstream_mr_ initial)
                  (initial_try_size up dm p.upstream_mr_ initial) 1))
      ∧ (initial_try_size up dm p.upstream_mr_ initial ≤ maximum.getD SIZE_MAX →
          0 < initial_try_size up dm p.upstream_mr_ initial →
          ∀ ptr,
          (up.allocate p.upstream_mr_ (initial_try_size up dm p.upstream_mr_ initial)).1
            = some ptr →
          initialize_pool up dm p initial maximum
            = (.ok (),
                { granted_state up
                    { p with current_pool_size_ := 0, maximum_pool_size_ := maximum }
                    (initial_try_size up dm p.upstream_mr_ initial) ptr with
                  inserted_blocks := p.inserted_blocks
                    ++ [((emplace p.upstream_blocks_
                          ⟨ptr, initial_try_size up dm p.upstream_mr_ initial, true⟩).2,
                        cuda_stream_legacy)] })) := by
  unfold initialize_pool
  simp only []
  generalize initial_try_size up dm p.upstream_mr_ initial = ts
  refine ⟨?_, ?_, ?_, ?_⟩
  · intro h1
    simp only [h1, if_false]
  · intro h1 h0
    subst h0
    simp only [h1, if_true]
    rfl
  · intro h1 h0 hr
    have h2 : ts > 0 := h0
    simp only [h1, h2, if_true]
    cases hs : up.throws_std_exception p.upstream_mr_ ts with
    | true =>
      rw [try_to_expand_once_refused up
        { p with current_pool_size_ := 0, maximum_pool_size_ := maximum } ts (Or.inr ⟨hr, hs⟩)]
      rfl
    | false =>
      rw [try_to_expand_once_propagates up
        { p with current_pool_size_ := 0, maximum_pool_size_ := maximum } ts
        ⟨by omega, hr, hs⟩]
      rfl
  · intro h1 h0 ptr hp
    have h2 : ts > 0 := h0
    simp only [h1, h2, if_true]
    rw [try_to_expand_first_granted up
      { p with current_pool_size_ := 0, maximum_pool_size_ := maximum } ts ts ptr
      (Nat.le_refl _) (by omega) hp]
    rfl

/-- The constructor with a non-null upstream and aligned sizes runs `initialize_pool` on the
freshly built object. -/
theorem new_aligned (up : upstream_resource σ) (dm : Nat × Nat) (u : σ)
    (initial maximum : Option Nat)
    (ha1 : is_aligned (initial.getD 0) CUDA_ALLOCATION_ALIGNMENT = true)
    (ha2 : is_aligned (maximum.getD 0) CUDA_ALLOCATION_ALIGNMENT = true) :
    pool_memory_resource.new up dm (some u) initial maximum
      = match initialize_pool up dm (empty_pool u none) initial maximum with
        | (.ok _, p) => .ok p
        | (.error e, p) => .error (e, p.upstream_calls) := by
  unfold pool_memory_resource.new
  simp only [ha1, ha2, if_true, empty_pool]

/-- The constructor throws `logic_error`, with no upstream call made, on a null upstream or a
misaligned size. -/
theorem new_invalid (up : upstream_resource σ) (dm : Nat × Nat) (upstream_mr : Option σ)
    (initial maximum : Option Nat)
    (h : upstream_mr = none
      ∨ is_aligned (initial.getD 0) CUDA_ALLOCATION_ALIGNMENT = false
      ∨ is_aligned (maximum.getD 0) CUDA_ALLOCATION_ALIGNMENT = false) :
    pool_memory_resource.new up dm upstream_mr initial maximum = .error (.logic_error, []) := by
  unfold pool_memory_resource.new
  cases upstream_mr with
  | none => rfl
  | some u =>
    rcases h with h | h | h
    · exact Option.noConfusion h
    · simp only [h]
      rfl
    · simp only [h]
      split <;> rfl

/-- C13: when the construction with a supplied initial size `I > 0` succeeds, the upstream
pointer was not null, the only upstream call made is one `allocate(I)`, which returned some
pointer `ptr`; the ledger is the single head block `(ptr, I, true)`, that block is what was
passed to `insert_block` for the legacy stream, and `pool_size()` is `I`. -/
theorem C13_construction_with_initial_size (up : upstream_resource σ) (dm : Nat × Nat)
    (upstream_mr : Option σ) (I : Nat) (maximum : Option Nat) (p : pool_memory_resource σ)
    (hI : 0 < I) (h64 : I < size_t_range)
    (hnew : pool_memory_resource.new up dm upstream_mr (some I) maximum = .ok p) :
    ∃ u ptr, upstream_mr = some u
      ∧ (up.allocate u I).1 = some ptr
      ∧ p.upstream_calls = [.allocate I (some ptr)]
      ∧ p.upstream_blocks_ = [⟨ptr, I, true⟩]
      ∧ p.inserted_blocks = [(⟨ptr, I, true⟩, cuda_stream_legacy)]
      ∧ pool_size p = I := by
  cases upstream_mr with
  | none =>
    rw [new_invalid up dm none (some I) maximum (Or.inl rfl)] at hnew
    exact Except.noConfusion hnew
  | some u =>
    cases ha1 : is_aligned ((some I).getD 0) CUDA_ALLOCATION_ALIGNMENT with
    | false =>
      rw [new_invalid up dm (some u) (some I) maximum (Or.inr (Or.inl ha1))] at hnew
      exact Except.noConfusion hnew
    | true =>
      cases ha2 : is_aligned (maximum.getD 0) CUDA_ALLOCATION_ALIGNMENT with
      | false =>
        rw [new_invalid up dm (some u) (some I) maximum (Or.inr (Or.inr ha2))] at hnew
        exact Except.noConfusion hnew
      | true =>
        rw [new_aligned up dm u (some I) maximum ha1 ha2] at hnew
        obtain ⟨c1, _, c3, c4⟩ := initialize_pool_cases up dm (empty_pool u none) (some I) maximum
        by_cases hle : I ≤ maximum.getD SIZE_MAX
        · cases hp : (up.allocate u I).1 with
          | none =>
            rw [c3 hle hI hp] at hnew
            exact Except.noConfusion hnew
          | some ptr =>
            rw [c4 hle hI ptr hp] at hnew
            injection hnew with hnew
            subst hnew
            refine ⟨u, ptr, rfl, hp, rfl, rfl, rfl, ?_⟩
            show (0 + I) % size_t_range = I
            rw [Nat.zero_add, Nat.mod_eq_of_lt h64]
        · rw [c1 hle] at hnew
          exact Except.noConfusion hnew

/-- C13 (instance): initial size 1 MiB and maximum 2 MiB over a simulated upstream of 4 MiB. -/
theorem C13_construction_with_initial_size_witness :
    0 < MiB ∧ MiB < size_t_range
      ∧ pool_memory_resource.new simulated_upstream (0, 0)
          (some (simulated_memory_resource.new (4 * MiB))) (some MiB) (some (2 * MiB))
          = .ok scenario_pool
      ∧ scenario_pool.upstream_blocks_ = [⟨0x100, MiB, true⟩]
      ∧ pool_size scenario_pool = MiB
      ∧ ∃ u ptr, some (simulated_memory_resource.new (4 * MiB)) = some u
          ∧ (simulated_upstream.allocate u MiB).1 = some ptr
          ∧ scenario_pool.upstream_calls = [.allocate MiB (some ptr)]
          ∧ scenario_pool.upstream_blocks_ = [⟨ptr, MiB, true⟩]
          ∧ scenario_pool.inserted_blocks = [(⟨ptr, MiB, true⟩, cuda_stream_legacy)]
          ∧ pool_size scenario_pool = MiB :=
  ⟨by decide, by decide, rfl, rfl, rfl,
    C13_construction_with_initial_size simulated_upstream (0, 0)
      (some (simulated_memory_resource.new (4 * MiB))) MiB (some (2 * MiB)) scenario_pool
      (by decide) (by decide) rfl⟩

/-- C14 (the claim fails): with 8192 bytes free out of 16384 the pool first asks upstream for
8192 bytes, not for half of the free memory (4096); with 1000 bytes free out of 4000 the size
to try is 1024, rounded up, not 256. The same holds when the figures come from the upstream
`get_mem_info`. -/
theorem C14_default_size_is_not_half_of_free :
    initial_try_size simulated_upstream (8192, 16384) (simulated_memory_resource.new 16384) none
        = 8192
      ∧ 8192 / 2 / 256 * 256 = 4096
      ∧ construction_calls
          (pool_memory_resource.new simulated_upstream (8192, 16384)
            (some (simulated_memory_resource.new 16384)) none none)
        = [.allocate 8192 (some 0x100)]
      ∧ initial_try_size simulated_upstream (1000, 4000) (simulated_memory_resource.new 4096) none
        = 1024
      ∧ 1000 / 2 / 256 * 256 = 256
      ∧ initial_try_size (reporting_upstream (8192, 16384)) (0, 0) [] none = 8192 := by
  refine ⟨rfl, rfl, rfl, rfl, rfl, rfl⟩

/-- C14 (amended): when no initial size is supplied, the size the pool first tries to obtain is
the smaller of the free memory and half the total memory (as reported by the upstream
`get_mem_info` if supported, else by the device), rounded up to a multiple of 256; when that
size is positive and within the maximum, the construction makes exactly one upstream request,
for that size. -/
theorem C14_default_initial_size (up : upstream_resource σ) (dm : Nat × Nat) (u : σ)
    (htotal : (reported_memory up dm u).2 < size_t_range) :
    initial_try_size up dm u none
        = (min (reported_memory up dm u).1 ((reported_memory up dm u).2 / 2) + 255) / 256 * 256
      ∧ initial_try_size up dm u none % 256 = 0
      ∧ min (reported_memory up dm u).1 ((reported_memory up dm u).2 / 2)
          ≤ initial_try_size up dm u none
      ∧ initial_try_size up dm u none
          < min (reported_memory up dm u).1 ((reported_memory up dm u).2 / 2) + 256
      ∧ (∀ maximum : Option Nat,
          is_aligned (maximum.getD 0) CUDA_ALLOCATION_ALIGNMENT = true →
          0 < initial_try_size up dm u none →
          initial_try_size up dm u none ≤ maximum.getD SIZE_MAX →
          ∃ r, construction_calls (pool_memory_resource.new up dm (some u) none maximum)
            = [.allocate (initial_try_size up dm u none) r]) := by
  have hmin : min (reported_memory up dm u).1 ((reported_memory up dm u).2 / 2)
      ≤ (reported_memory up dm u).2 / 2 := Nat.min_le_right _ _
  have hformula : initial_try_size up dm u none
      = (min (reported_memory up dm u).1 ((reported_memory up dm u).2 / 2) + 255) / 256 * 256 := by
    show align_up (min (reported_memory up dm u).1 ((reported_memory up dm u).2 / 2))
      CUDA_ALLOCATION_ALIGNMENT = _
    unfold align_up CUDA_ALLOCATION_ALIGNMENT
    rw [Nat.mod_eq_of_lt]
    unfold size_t_range at htotal ⊢
    omega
  refine ⟨hformula, ?_, ?_, ?_, ?_⟩
  · rw [hformula]
    exact Nat.mul_mod_left _ _
  · rw [hformula]
    omega
  · rw [hformula]
    omega
  · intro maximum ha2 h0 hle
    rw [new_aligned up dm u none maximum rfl ha2]
    obtain ⟨_, _, c3, c4⟩ := initialize_pool_cases up dm (empty_pool u none) none maximum
    cases hp : (up.allocate u (initial_try_size up dm u none)).1 with
    | none =>
      rw [c3 hle h0 hp]
      refine ⟨none, ?_⟩
      have hne : ¬ initial_try_size up dm u none = 0 := by omega
      show ([] : List upstream_call)
        ++ refusal_calls (initial_try_size up dm u none) (initial_try_size up dm u none) 1 = _
      simp [refusal_calls, hne]
    | some ptr =>
      rw [c4 hle h0 ptr hp]
      exact ⟨some ptr, rfl⟩

/-- C14 (instance): 1000 bytes free out of 4000 on the device give a first request of 1024
bytes. -/
theorem C14_default_initial_size_witness :
    (reported_memory simulated_upstream (1000, 4000) (simulated_memory_resource.new 4096)).2
        < size_t_range
      ∧ initial_try_size simulated_upstream (1000, 4000) (simulated_memory_resource.new 4096) none
        = (min 1000 (4000 / 2) + 255) / 256 * 256 :=
  ⟨by decide,
    (C14_default_initial_size simulated_upstream (1000, 4000)
      (simulated_memory_resource.new 4096) (by decide)).1⟩

theorem is_aligned_false_of_mod (v : Nat) (h : v % 256 ≠ 0) :
    is_aligned v CUDA_ALLOCATION_ALIGNMENT = false := by
  unfold is_aligned CUDA_ALLOCATION_ALIGNMENT
  simpa using h

/-- C15: the construction throws `logic_error`, before any upstream call, whenever the upstream
pointer is null, or a supplied initial size is not a multiple of 256, or a supplied maximum
size is not a multiple of 256. An unsupplied size passes the alignment check (it is checked as
zero): with both sizes unsupplied the constructor reaches `initialize_pool`. -/
theorem C15_construction_invalid_argument (up : upstream_resource σ) (dm : Nat × Nat)
    (upstream_mr : Option σ) (initial maximum : Option Nat)
    (h : upstream_mr = none
      ∨ (∃ I, initial = some I ∧ I % 256 ≠ 0)
      ∨ (∃ M, maximum = some M ∧ M % 256 ≠ 0)) :
    pool_memory_resource.new up dm upstream_mr initial maximum = .error (.logic_error, [])
      ∧ construction_calls (pool_memory_resource.new up dm upstream_mr initial maximum) = []
      ∧ is_aligned ((none : Option Nat).getD 0) CUDA_ALLOCATION_ALIGNMENT = true
      ∧ (∀ u : σ, pool_memory_resource.new up dm (some u) none none
          = match initialize_pool up dm (empty_pool u none) none none with
            | (.ok _, p) => .ok p
            | (.error e, p) => .error (e, p.upstream_calls)) := by
  have hnew : pool_memory_resource.new up dm upstream_mr initial maximum
      = .error (.logic_error, []) := by
    apply new_invalid
    rcases h with h | ⟨I, hI, hmod⟩ | ⟨M, hM, hmod⟩
    · exact Or.inl h
    · subst hI
      exact Or.inr (Or.inl (is_aligned_false_of_mod I hmod))
    · subst hM
      exact Or.inr (Or.inr (is_aligned_false_of_mod M hmod))
  rw [hnew]
  exact ⟨rfl, rfl, rfl, fun u => new_aligned up dm u none none rfl rfl⟩

/-- C15 (instance): an initial size of 100 bytes is rejected. -/
theorem C15_construction_invalid_argument_witness :
    ((some (simulated_memory_resource.new 4096) = none)
        ∨ (∃ I, some 100 = some I ∧ I % 256 ≠ 0)
        ∨ (∃ M, (none : Option Nat) = some M ∧ M % 256 ≠ 0))
      ∧ pool_memory_resource.new simulated_upstream (0, 0)
          (some (simulated_memory_resource.new 4096)) (some 100) none
        = .error (.logic_error, []) :=
  ⟨Or.inr (Or.inl ⟨100, rfl, by decide⟩),
    (C15_construction_invalid_argument simulated_upstream (0, 0)
      (some (simulated_memory_resource.new 4096)) (some 100) none
      (Or.inr (Or.inl ⟨100, rfl, by decide⟩))).1⟩

/-- C16 (the claim fails): a refusal by an exception that is not derived from `std::exception`
does not end in `out_of_memory`. Over an upstream whose `allocate` throws such an exception, a
construction with valid arguments and initial size 256 is refused its single request of 256
bytes, and the exception that leaves the constructor is the one upstream threw. -/
theorem C16_foreign_refusal_not_out_of_memory :
    is_aligned 256 CUDA_ALLOCATION_ALIGNMENT = true
      ∧ (foreign_upstream.allocate 0 256).1 = none
      ∧ pool_memory_resource.new foreign_upstream (0, 0) (some 0) (some 256) none
          = .error (.upstream_exception, [.allocate 256 none])
      ∧ pool_memory_resource.new foreign_upstream (0, 0) (some 0) (some 256) none
          ≠ .error (.out_of_memory, [.allocate 256 none]) := by
  refine ⟨rfl, rfl, rfl, ?_⟩
  intro h
  rw [show pool_memory_resource.new foreign_upstream (0, 0) (some 0) (some 256) none
      = .error (.upstream_exception, [.allocate 256 none]) from rfl] at h
  injection h with h
  injection h with h _
  exact error.noConfusion h

/-- C16 (amended): a construction with a non-null upstream, aligned sizes and an initial size
`I > 0` within the maximum, whose `allocate(I)` upstream refuses, fails after exactly one
upstream call, the refused `allocate(I)`: no smaller size is tried. It throws `out_of_memory`
when the exception upstream threw is derived from `std::exception`; an exception of another
type leaves the constructor as it is. -/
theorem C16_construction_refused (up : upstream_resource σ) (dm : Nat × Nat) (u : σ)
    (I : Nat) (maximum : Option Nat)
    (ha1 : is_aligned I CUDA_ALLOCATION_ALIGNMENT = true)
    (ha2 : is_aligned (maximum.getD 0) CUDA_ALLOCATION_ALIGNMENT = true)
    (hle : I ≤ maximum.getD SIZE_MAX) (hI : 0 < I)
    (hrefuse : (up.allocate u I).1 = none) :
    (up.throws_std_exception u I = true →
        pool_memory_resource.new up dm (some u) (some I) maximum
          = .error (.out_of_memory, [.allocate I none]))
      ∧ (up.throws_std_exception u I = false →
        pool_memory_resource.new up dm (some u) (some I) maximum
          = .error (.upstream_exception, [.allocate I none]))
      ∧ construction_calls (pool_memory_resource.new up dm (some u) (some I) maximum)
        = [.allocate I none] := by
  have hne : ¬ I = 0 := by omega
  have hnew : pool_memory_resource.new up dm (some u) (some I) maximum
      = .error (if up.throws_std_exception u I = true
          then error.out_of_memory else error.upstream_exception, [.allocate I none]) := by
    rw [new_aligned up dm u (some I) maximum ha1 ha2]
    obtain ⟨_, _, c3, _⟩ := initialize_pool_cases up dm (empty_pool u none) (some I) maximum
    rw [c3 hle hI hrefuse]
    show Except.error (_, ([] : List upstream_call) ++ refusal_calls I I 1) = _
    simp [refusal_calls, hne]
    rfl
  rw [hnew]
  refine ⟨fun h => ?_, fun h => ?_, rfl⟩
  · rw [if_pos h]
  · rw [if_neg (by rw [h]; exact Bool.noConfusion)]

/-- C16 (instance): an initial size of 8192 bytes over a simulated upstream of 4096 bytes, which
refuses with `rmm::bad_alloc`, an exception derived from `std::exception`. -/
theorem C16_construction_refused_witness :
    is_aligned 8192 CUDA_ALLOCATION_ALIGNMENT = true
      ∧ is_aligned ((none : Option Nat).getD 0) CUDA_ALLOCATION_ALIGNMENT = true
      ∧ 8192 ≤ (none : Option Nat).getD SIZE_MAX ∧ 0 < 8192
      ∧ (simulated_upstream.allocate (simulated_memory_resource.new 4096) 8192).1 = none
      ∧ pool_memory_resource.new simulated_upstream (0, 0)
          (some (simulated_memory_resource.new 4096)) (some 8192) none
        = .error (.out_of_memory, [.allocate 8192 none]) :=
  ⟨rfl, rfl, by decide, by decide, rfl,
    (C16_construction_refused simulated_upstream (0, 0) (simulated_memory_resource.new 4096)
      8192 none rfl rfl (by decide) (by decide) rfl).1 rfl⟩

/-! ### Release -/

theorem granted_blocks_append (a b : List upstream_call) :
    granted_blocks (a ++ b) = granted_blocks a ++ granted_blocks b := by
  simp [granted_blocks, List.filterMap_append]

theorem released_blocks_append (a b : List upstream_call) :
    released_blocks (a ++ b) = released_blocks a ++ released_blocks b := by
  simp [released_blocks, List.filterMap_append]

theorem refusal_calls_no_block (m k : Nat) :
    ∀ t, granted_blocks (refusal_calls m t k) = []
      ∧ released_blocks (refusal_calls m t k) = [] := by
  induction k with
  | zero => intro t; exact ⟨rfl, rfl⟩
  | succ k ih =>
    intro t
    rw [refusal_calls, granted_blocks_append, released_blocks_append, (ih _).1, (ih _).2]
    by_cases h0 : t = 0
    · simp [h0, granted_blocks, released_blocks]
    · simp [h0, granted_blocks, released_blocks]

theorem deallocate_calls_blocks (ledger : List block) :
    granted_blocks (ledger.map fun blk => upstream_call.deallocate blk.pointer blk.size) = []
      ∧ released_blocks (ledger.map fun blk => upstream_call.deallocate blk.pointer blk.size)
        = ledger_ranges ledger := by
  induction ledger with
  | nil => exact ⟨rfl, rfl⟩
  | cons x xs ih =>
    constructor
    · have h := ih.1
      simp only [granted_blocks, List.map_cons, List.filterMap_cons] at h ⊢
      exact h
    · have h := ih.2
      simp only [released_blocks, ledger_ranges, List.map_cons, List.filterMap_cons] at h ⊢
      rw [h]

/-- The log and the ledger after `try_to_expand`: refusals only and the same ledger when it
throws; refusals, one grant and the emplaced block when it returns. -/
theorem try_to_expand_log (up : upstream_resource σ) (p : pool_memory_resource σ) (t m : Nat) :
    (∃ k e, (try_to_expand up p t m).1 = .error e
        ∧ (try_to_expand up p t m).2.upstream_calls = p.upstream_calls ++ refusal_calls m t k
        ∧ (try_to_expand up p t m).2.upstream_blocks_ = p.upstream_blocks_)
      ∨ (∃ k n ptr,
        (try_to_expand up p t m).1 = .ok (emplace p.upstream_blocks_ ⟨ptr, n, true⟩).2
        ∧ (try_to_expand up p t m).2.upstream_calls
            = p.upstream_calls ++ refusal_calls m t k ++ [.allocate n (some ptr)]
        ∧ (try_to_expand up p t m).2.upstream_blocks_
            = (emplace p.upstream_blocks_ ⟨ptr, n, true⟩).1) := by
  by_cases hlt : t < m
  · rw [try_to_expand_below_min up p t m hlt]
    exact Or.inl ⟨0, _, rfl, (List.append_nil _).symm, rfl⟩
  · obtain ⟨k, _, hres⟩ := try_to_expand_spec up p t m (by omega)
    rcases hres with ⟨_, _, heq⟩ | ⟨ptr, _, _, heq⟩ | ⟨_, heq⟩
    · rw [heq]
      exact Or.inl ⟨k + 1, _, rfl, rfl, rfl⟩
    · rw [heq]
      exact Or.inr ⟨k, halving t m k, ptr, rfl, rfl, rfl⟩
    · rw [heq]
      exact Or.inl ⟨k + 1, _, rfl, rfl, rfl⟩

theorem try_to_expand_accounts (up : upstream_resource σ) (p : pool_memory_resource σ)
    (t m : Nat)
    (hinv : List.Perm (granted_blocks p.upstream_calls)
      (released_blocks p.upstream_calls ++ ledger_ranges p.upstream_blocks_))
    (hfresh : ∀ b, (try_to_expand up p t m).1 = .ok b →
      ledger_contains p.upstream_blocks_ b.pointer = false) :
    List.Perm (granted_blocks (try_to_expand up p t m).2.upstream_calls)
        (released_blocks (try_to_expand up p t m).2.upstream_calls
          ++ ledger_ranges (try_to_expand up p t m).2.upstream_blocks_)
      ∧ released_blocks (try_to_expand up p t m).2.upstream_calls
        = released_blocks p.upstream_calls := by
  rcases try_to_expand_log up p t m with ⟨k, e, _, hc, hl⟩ | ⟨k, n, ptr, hb, hc, hl⟩
  · rw [hc, hl, granted_blocks_append, released_blocks_append, (refusal_calls_no_block m k t).1,
      (refusal_calls_no_block m k t).2, List.append_nil, List.append_nil]
    exact ⟨hinv, rfl⟩
  · have hf := hfresh _ hb
    rw [emplace_snd_pointer] at hf
    obtain ⟨_, hperm⟩ := emplace_fresh p.upstream_blocks_ ⟨ptr, n, true⟩ hf
    have hg : granted_blocks [upstream_call.allocate n (some ptr)] = [(ptr, n)] := rfl
    have hr : released_blocks [upstream_call.allocate n (some ptr)] = [] := rfl
    rw [hc, hl, granted_blocks_append, granted_blocks_append, released_blocks_append,
      released_blocks_append, (refusal_calls_no_block m k t).1,
      (refusal_calls_no_block m k t).2, hg, hr]
    simp only [List.append_nil]
    refine ⟨?_, trivial⟩
    have hL : List.Perm (ledger_ranges (emplace p.upstream_blocks_ ⟨ptr, n, true⟩).1)
        ((ptr, n) :: ledger_ranges p.upstream_blocks_) :=
      hperm.map fun b : block => (b.pointer, b.size)
    have h1 := List.Perm.append_left (released_blocks p.upstream_calls) hL
    have h2 : List.Perm
        (released_blocks p.upstream_calls ++ (ptr, n) :: ledger_ranges p.upstream_blocks_)
        ((ptr, n) :: (released_blocks p.upstream_calls ++ ledger_ranges p.upstream_blocks_)) :=
      List.perm_middle
    have h3 := (hinv.symm).cons (ptr, n)
    have h4 := (List.perm_append_singleton (ptr, n) (granted_blocks p.upstream_calls)).symm
    exact (h1.trans (h2.trans (h3.trans h4))).symm

theorem new_accounts (up : upstream_resource σ) (dm : Nat × Nat) (upstream_mr : Option σ)
    (initial maximum : Option Nat) (p : pool_memory_resource σ)
    (hnew : pool_memory_resource.new up dm upstream_mr initial maximum = .ok p) :
    List.Perm (granted_blocks p.upstream_calls)
        (released_blocks p.upstream_calls ++ ledger_ranges p.upstream_blocks_)
      ∧ released_blocks p.upstream_calls = [] := by
  cases upstream_mr with
  | none =>
    rw [new_invalid up dm none initial maximum (Or.inl rfl)] at hnew
    exact Except.noConfusion hnew
  | some u =>
    cases ha1 : is_aligned (initial.getD 0) CUDA_ALLOCATION_ALIGNMENT with
    | false =>
      rw [new_invalid up dm (some u) initial maximum (Or.inr (Or.inl ha1))] at hnew
      exact Except.noConfusion hnew
    | true =>
      cases ha2 : is_aligned (maximum.getD 0) CUDA_ALLOCATION_ALIGNMENT with
      | false =>
        rw [new_invalid up dm (some u) initial maximum (Or.inr (Or.inr ha2))] at hnew
        exact Except.noConfusion hnew
      | true =>
        rw [new_aligned up dm u initial maximum ha1 ha2] at hnew
        obtain ⟨c1, c2, c3, c4⟩ :=
          initialize_pool_cases up dm (empty_pool u none) initial maximum
        by_cases hle : initial_try_size up dm (empty_pool u none).upstream_mr_ initial
            ≤ maximum.getD SIZE_MAX
        · by_cases h0 : initial_try_size up dm (empty_pool u none).upstream_mr_ initial = 0
          · rw [c2 hle h0] at hnew
            injection hnew with hnew
            subst hnew
            exact ⟨List.Perm.refl _, rfl⟩
          · cases hp : (up.allocate (empty_pool u none).upstream_mr_
                (initial_try_size up dm (empty_pool u none).upstream_mr_ initial)).1 with
            | none =>
              rw [c3 hle (Nat.pos_of_ne_zero h0) hp] at hnew
              exact Except.noConfusion hnew
            | some ptr =>
              rw [c4 hle (Nat.pos_of_ne_zero h0) ptr hp] at hnew
              injection hnew with hnew
              subst hnew
              exact ⟨List.Perm.refl _, rfl⟩
        · rw [c1 hle] at hnew
          exact Except.noConfusion hnew

theorem apply_op_accounts (up : upstream_resource σ) (p : pool_memory_resource σ)
    (op : pool_op)
    (hinv : List.Perm (granted_blocks p.upstream_calls)
      (released_blocks p.upstream_calls ++ ledger_ranges p.upstream_blocks_))
    (hfresh : op_fresh up p op = true) :
    List.Perm (granted_blocks (apply_op up p op).upstream_calls)
        (released_blocks (apply_op up p op).upstream_calls
          ++ ledger_ranges (apply_op up p op).upstream_blocks_)
      ∧ (op ≠ .release →
          released_blocks (apply_op up p op).upstream_calls
            = released_blocks p.upstream_calls) := by
  cases op with
  | expand_pool size =>
    have h := try_to_expand_accounts up p (size_to_grow p size) size hinv (by
      intro b hb
      have hb' : (expand_pool up p size).1 = .ok b := hb
      simp only [op_fresh, hb'] at hfresh
      simpa using hfresh)
    exact ⟨h.1, fun _ => h.2⟩
  | free_block ptr size => exact ⟨hinv, fun _ => rfl⟩
  | allocate_from_block b size => exact ⟨hinv, fun _ => rfl⟩
  | release =>
    refine ⟨?_, fun h => absurd rfl h⟩
    show List.Perm
      (granted_blocks (p.upstream_calls
        ++ p.upstream_blocks_.map fun blk => upstream_call.deallocate blk.pointer blk.size))
      (released_blocks (p.upstream_calls
        ++ p.upstream_blocks_.map fun blk => upstream_call.deallocate blk.pointer blk.size)
        ++ ledger_ranges [])
    rw [granted_blocks_append, released_blocks_append, (deallocate_calls_blocks _).1,
      (deallocate_calls_blocks _).2]
    simpa [ledger_ranges] using hinv

theorem run_ops_accounts (up : upstream_resource σ) (ops : List pool_op) :
    ∀ p : pool_memory_resource σ,
      List.Perm (granted_blocks p.upstream_calls)
        (released_blocks p.upstream_calls ++ ledger_ranges p.upstream_blocks_) →
      ops_fresh up p ops = true →
      List.Perm (granted_blocks (run_ops up p ops).upstream_calls)
          (released_blocks (run_ops up p ops).upstream_calls
            ++ ledger_ranges (run_ops up p ops).upstream_blocks_)
        ∧ ((∀ op ∈ ops, op ≠ pool_op.release) →
            released_blocks (run_ops up p ops).upstream_calls
              = released_blocks p.upstream_calls) := by
  induction ops with
  | nil => intro p hinv _; exact ⟨hinv, fun _ => rfl⟩
  | cons op ops ih =>
    intro p hinv hfresh
    simp only [ops_fresh, Bool.and_eq_true] at hfresh
    have hstep := apply_op_accounts up p op hinv hfresh.1
    have hrest := ih (apply_op up p op) hstep.1 hfresh.2
    refine ⟨hrest.1, fun hno => ?_⟩
    have h1 := hrest.2 fun o ho => hno o (List.mem_cons_of_mem _ ho)
    have h2 := hstep.2 (hno op (List.mem_cons_self _ _))
    exact h1.trans h2

/-! #### What a recording upstream receives -/

theorem block_from_upstream_record (up : upstream_resource σ)
    (p : pool_memory_resource (σ × List upstream_call)) (size : Nat)
    (hI : p.upstream_mr_.2 = p.upstream_calls) :
    (block_from_upstream (recording up) p size).2.upstream_mr_.2
      = (block_from_upstream (recording up) p size).2.upstream_calls := by
  unfold block_from_upstream
  by_cases h0 : size = 0
  · simp only [h0, if_true]
    exact hI
  · simp only [h0, if_false]
    have hr : ((recording up).allocate p.upstream_mr_ size).1
        = (up.allocate p.upstream_mr_.1 size).1 := rfl
    have hs : ((recording up).allocate p.upstream_mr_ size).2.2
        = p.upstream_mr_.2 ++ [.allocate size (up.allocate p.upstream_mr_.1 size).1] := rfl
    cases hc : (up.allocate p.upstream_mr_.1 size).1 with
    | none =>
      rw [hc] at hr hs
      simp only [hr]
      show ((recording up).allocate p.upstream_mr_ size).2.2 = _
      rw [hs, hI]
    | some ptr =>
      rw [hc] at hr hs
      simp only [hr]
      show ((recording up).allocate p.upstream_mr_ size).2.2 = _
      rw [hs, hI]

theorem try_to_expand_loop_record (up : upstream_resource σ) :
    ∀ (fuel : Nat) (p : pool_memory_resource (σ × List upstream_call)) (t m : Nat)
      (h : t - m < fuel),
      p.upstream_mr_.2 = p.upstream_calls →
      (try_to_expand_loop (recording up) fuel p t m h).2.upstream_mr_.2
        = (try_to_expand_loop (recording up) fuel p t m h).2.upstream_calls := by
  intro fuel
  induction fuel with
  | zero => intro p t m h; exact absurd h (Nat.not_lt_zero _)
  | succ fuel ih =>
    intro p t m h hI
    have hb := block_from_upstream_record up p t hI
    rw [try_to_expand_loop]
    by_cases hge : m ≤ t
    · simp only [hge, dite_true]
      cases hc : (block_from_upstream (recording up) p t).1 with
      | error e => exact hb
      | ok o =>
        cases o with
        | some blk => exact hb
        | none =>
          by_cases hne : t = m
          · subst hne
            simp only [dite_true]
            exact hb
          · simp only [hne, dite_false]
            exact ih _ _ _ _ hb
    · simp only [hge, dite_false]
      exact hI

theorem initialize_pool_record (up : upstream_resource σ) (dm : Nat × Nat)
    (p : pool_memory_resource (σ × List upstream_call)) (initial maximum : Option Nat)
    (hI : p.upstream_mr_.2 = p.upstream_calls) :
    (initialize_pool (recording up) dm p initial maximum).2.upstream_mr_.2
      = (initialize_pool (recording up) dm p initial maximum).2.upstream_calls := by
  unfold initialize_pool
  simp only []
  generalize initial_try_size (recording up) dm p.upstream_mr_ initial = ts
  have h1 := try_to_expand_loop_record up (ts - ts + 1)
    { p with current_pool_size_ := 0, maximum_pool_size_ := maximum } ts ts
    (Nat.lt_succ_self _) hI
  by_cases hle : ts ≤ maximum.getD SIZE_MAX
  · simp only [hle, if_true]
    by_cases hpos : ts > 0
    · simp only [hpos, if_true]
      cases hc : (try_to_expand (recording up)
          { p with current_pool_size_ := 0, maximum_pool_size_ := maximum } ts ts).1 with
      | error e => exact h1
      | ok blk => exact h1
    · simp only [hpos, if_false]
      exact hI
  · simp only [hle, if_false]
    exact hI

theorem new_record (up : upstream_resource σ) (dm : Nat × Nat) (u : σ)
    (initial maximum : Option Nat) (p : pool_memory_resource (σ × List upstream_call))
    (hnew : pool_memory_resource.new (recording up) dm (some (u, [])) initial maximum = .ok p) :
    p.upstream_mr_.2 = p.upstream_calls := by
  cases ha1 : is_aligned (initial.getD 0) CUDA_ALLOCATION_ALIGNMENT with
  | false =>
    rw [new_invalid (recording up) dm (some (u, [])) initial maximum (Or.inr (Or.inl ha1))]
      at hnew
    exact Except.noConfusion hnew
  | true =>
    cases ha2 : is_aligned (maximum.getD 0) CUDA_ALLOCATION_ALIGNMENT with
    | false =>
      rw [new_invalid (recording up) dm (some (u, [])) initial maximum (Or.inr (Or.inr ha2))]
        at hnew
      exact Except.noConfusion hnew
    | true =>
      rw [new_aligned (recording up) dm (u, []) initial maximum ha1 ha2] at hnew
      have hi := initialize_pool_record up dm (empty_pool (u, []) none) initial maximum rfl
      cases hq : initialize_pool (recording up) dm (empty_pool (u, []) none) initial maximum with
      | mk r q =>
        rw [hq] at hnew hi
        cases r with
        | error e => exact Except.noConfusion hnew
        | ok v =>
          injection hnew with hnew
          rw [← hnew]
          exact hi

theorem recording_deallocate_foldl (up : upstream_resource σ) (l : List block) :
    ∀ s : σ × List upstream_call,
      l.foldl (fun u blk => (recording up).deallocate u blk.pointer blk.size) s
        = (l.foldl (fun u blk => up.deallocate u blk.pointer blk.size) s.1,
            s.2 ++ l.map (fun blk => upstream_call.deallocate blk.pointer blk.size)) := by
  induction l with
  | nil => intro s; simp
  | cons x xs ih =>
    intro s
    rw [List.foldl_cons, ih]
    simp [recording, List.append_assoc]

theorem release_record (up : upstream_resource σ)
    (p : pool_memory_resource (σ × List upstream_call)) :
    (release (recording up) p).upstream_mr_
      = (p.upstream_blocks_.foldl (fun u blk => up.deallocate u blk.pointer blk.size)
            p.upstream_mr_.1,
          p.upstream_mr_.2
            ++ p.upstream_blocks_.map
                (fun blk => upstream_call.deallocate blk.pointer blk.size)) :=
  recording_deallocate_foldl up p.upstream_blocks_ p.upstream_mr_

theorem apply_op_record (up : upstream_resource σ)
    (p : pool_memory_resource (σ × List upstream_call)) (op : pool_op)
    (hI : p.upstream_mr_.2 = p.upstream_calls) :
    (apply_op (recording up) p op).upstream_mr_.2
      = (apply_op (recording up) p op).upstream_calls := by
  cases op with
  | expand_pool size => exact try_to_expand_loop_record up _ p _ _ _ hI
  | free_block ptr size => exact hI
  | allocate_from_block b size => exact hI
  | release =>
    show (release (recording up) p).upstream_mr_.2 = (release (recording up) p).upstream_calls
    rw [release_record, hI]
    rfl

theorem run_ops_record (up : upstream_resource σ) (ops : List pool_op) :
    ∀ p : pool_memory_resource (σ × List upstream_call),
      p.upstream_mr_.2 = p.upstream_calls →
      (run_ops (recording up) p ops).upstream_mr_.2
        = (run_ops (recording up) p ops).upstream_calls := by
  induction ops with
  | nil => intro p hI; exact hI
  | cons op ops ih =>
    intro p hI
    exact ih (apply_op (recording up) p op) (apply_op_record up p op hI)

/-- C17: a pool is built by the constructor over an upstream that records the calls it receives
and is taken through any sequence of operations during which upstream never returned a pointer
that the ledger held. Then `release` hands every ledger block, with its pointer and its size,
to the upstream `deallocate`, in ledger order, and upstream receives no other call: its record
grows by exactly these calls and its state is what these calls of its own `deallocate` leave.
After `release` the `(pointer, size)` pairs that upstream received in `deallocate` over the
life of the pool are, up to order, the pairs that it granted, so the two counts agree. When
`release` had not run before, upstream had received no `deallocate`, and the ledger holds
exactly the blocks that upstream granted since construction. -/
theorem C17_release_returns_granted_blocks (up : upstream_resource σ) (dm : Nat × Nat)
    (u : σ) (initial maximum : Option Nat)
    (p : pool_memory_resource (σ × List upstream_call)) (ops : List pool_op)
    (hnew : pool_memory_resource.new (recording up) dm (some (u, [])) initial maximum = .ok p)
    (hfresh : ops_fresh (recording up) p ops = true) :
    (release (recording up) (run_ops (recording up) p ops)).upstream_mr_.2
        = (run_ops (recording up) p ops).upstream_mr_.2
          ++ (run_ops (recording up) p ops).upstream_blocks_.map
              (fun blk => upstream_call.deallocate blk.pointer blk.size)
      ∧ (release (recording up) (run_ops (recording up) p ops)).upstream_mr_.1
        = (run_ops (recording up) p ops).upstream_blocks_.foldl
            (fun s blk => up.deallocate s blk.pointer blk.size)
            (run_ops (recording up) p ops).upstream_mr_.1
      ∧ List.Perm
          (released_blocks
            (release (recording up) (run_ops (recording up) p ops)).upstream_mr_.2)
          (granted_blocks
            (release (recording up) (run_ops (recording up) p ops)).upstream_mr_.2)
      ∧ (released_blocks
            (release (recording up) (run_ops (recording up) p ops)).upstream_mr_.2).length
          = (granted_blocks
            (release (recording up) (run_ops (recording up) p ops)).upstream_mr_.2).length
      ∧ ((∀ op ∈ ops, op ≠ pool_op.release) →
          released_blocks (run_ops (recording up) p ops).upstream_mr_.2 = []
          ∧ List.Perm (ledger_ranges (run_ops (recording up) p ops).upstream_blocks_)
              (granted_blocks (run_ops (recording up) p ops).upstream_mr_.2)) := by
  have hIp := new_record up dm u initial maximum p hnew
  have hIq := run_ops_record up ops p hIp
  have hIr := apply_op_record up (run_ops (recording up) p ops) .release hIq
  have hrec := release_record up (run_ops (recording up) p ops)
  obtain ⟨h0, hr0⟩ := new_accounts (recording up) dm (some (u, [])) initial maximum p hnew
  obtain ⟨hq, hrel⟩ := run_ops_accounts (recording up) ops p h0 hfresh
  have hfinal := (apply_op_accounts (recording up) (run_ops (recording up) p ops) .release
    hq rfl).1
  have hfinal' : List.Perm
      (granted_blocks (release (recording up) (run_ops (recording up) p ops)).upstream_calls)
      (released_blocks
        (release (recording up) (run_ops (recording up) p ops)).upstream_calls) := by
    have h := hfinal
    simp only [apply_op] at h
    have hl : (release (recording up) (run_ops (recording up) p ops)).upstream_blocks_ = [] :=
      rfl
    rw [hl] at h
    simpa [ledger_ranges] using h
  have hIr' : (release (recording up) (run_ops (recording up) p ops)).upstream_mr_.2
      = (release (recording up) (run_ops (recording up) p ops)).upstream_calls := hIr
  refine ⟨by rw [hrec], by rw [hrec], ?_, ?_, fun hno => ?_⟩
  · rw [hIr']
    exact hfinal'.symm
  · rw [hIr']
    exact hfinal'.symm.length_eq
  · have hr := (hrel hno).trans hr0
    rw [hIq]
    refine ⟨hr, ?_⟩
    rw [hr, List.nil_append] at hq
    exact hq.symm

/-- C17 (instance): the pool built over a recording simulated upstream of 4096 bytes and taken
through `small_pool_ops` hands back the two blocks that upstream granted: upstream receives
`deallocate(256, 256)` and `deallocate(512, 384)`. -/
theorem C17_release_returns_granted_blocks_witness :
    pool_memory_resource.new (recording simulated_upstream) (0, 0)
        (some (simulated_memory_resource.new 4096, [])) (some 256) (some 1024)
        = .ok recorded_small_pool
      ∧ ops_fresh (recording simulated_upstream) recorded_small_pool small_pool_ops = true
      ∧ granted_blocks
          (release (recording simulated_upstream)
            (run_ops (recording simulated_upstream) recorded_small_pool
              small_pool_ops)).upstream_mr_.2
        = [(256, 256), (512, 384)]
      ∧ released_blocks
          (release (recording simulated_upstream)
            (run_ops (recording simulated_upstream) recorded_small_pool
              small_pool_ops)).upstream_mr_.2
        = [(256, 256), (512, 384)]
      ∧ List.Perm
          (released_blocks
            (release (recording simulated_upstream)
              (run_ops (recording simulated_upstream) recorded_small_pool
                small_pool_ops)).upstream_mr_.2)
          (granted_blocks
            (release (recording simulated_upstream)
              (run_ops (recording simulated_upstream) recorded_small_pool
                small_pool_ops)).upstream_mr_.2) :=
  ⟨rfl, rfl, rfl, rfl,
    (C17_release_returns_granted_blocks simulated_upstream (0, 0)
      (simulated_memory_resource.new 4096) (some 256) (some 1024) recorded_small_pool
      small_pool_ops rfl rfl).2.2.1⟩

/-- C18: after `release` the ledger is empty and `pool_size()` is zero; a second `release` makes
no upstream call and changes nothing: `release` after `release` is `release`. -/
theorem C18_release_idempotent (up : upstream_resource σ) (p : pool_memory_resource σ) :
    (release up p).upstream_blocks_ = []
      ∧ pool_size (release up p) = 0
      ∧ (release up (release up p)).upstream_calls = (release up p).upstream_calls
      ∧ (release up (release up p)).upstream_mr_ = (release up p).upstream_mr_
      ∧ release up (release up p) = release up p := by
  refine ⟨rfl, rfl, ?_, rfl, ?_⟩
  · simp [release]
  · simp [release]

/-- C19 (defect in the code): on a simulated resource of 4096 bytes a first allocation of
`2 ^ 64 - 8` bytes succeeds at address 0x100, because `begin_ + bytes` wraps around to 0xF8;
the next successful allocation, of 8 bytes, returns 0xF8, which is below the first address
and is not 0x100 plus the bytes allocated before. -/
theorem C19_addresses_not_monotonic :
    (simulated_memory_resource.new 4096).do_allocate (size_t_range - 8)
        = (.ok 0x100, { begin_ := 0xF8, end_ := 0x1100 })
      ∧ (simulated_memory_resource.do_allocate { begin_ := 0xF8, end_ := 0x1100 } 8).1
        = .ok 0xF8
      ∧ 0xF8 < 0x100
      ∧ 0xF8 ≠ 0x100 + (size_t_range - 8) := by
  refine ⟨rfl, rfl, ?_, ?_⟩ <;> decide

/-- C20 (defect in the code): on a fresh simulated resource of 4096 bytes, `do_allocate` of
`2 ^ 64 - 8` bytes succeeds and moves `begin_`, although the bytes handed out (none) plus the
bytes requested exceed the simulated memory size; the comparison `begin_ + bytes <= end_` is
made after the pointer addition has wrapped around. -/
theorem C20_do_allocate_exceeds_capacity :
    (simulated_memory_resource.new 4096).begin_ = 0x100
      ∧ (simulated_memory_resource.new 4096).end_ = 0x100 + 4096
      ∧ ¬ (0 + (size_t_range - 8) ≤ 4096)
      ∧ size_t_range - 8 < size_t_range
      ∧ ptr_add 0x100 (size_t_range - 8) = 0xF8
      ∧ ((simulated_memory_resource.new 4096).do_allocate (size_t_range - 8)).1 = .ok 0x100
      ∧ ((simulated_memory_resource.new 4096).do_allocate (size_t_range - 8)).2
        ≠ simulated_memory_resource.new 4096 := by
  refine ⟨rfl, rfl, ?_, ?_, rfl, rfl, ?_⟩ <;> decide

/-- Where the pointer addition does not wrap around, `do_allocate` succeeds exactly when
`begin_ + bytes` does not pass `end_`; it then returns the old `begin_` and advances it by
`bytes`, and otherwise throws `bad_alloc` and leaves the state as it was. -/
theorem do_allocate_without_wrap (mr : simulated_memory_resource) (bytes : Nat)
    (h : mr.begin_ + bytes < size_t_range) :
    (mr.begin_ + bytes ≤ mr.end_ →
        mr.do_allocate bytes = (.ok mr.begin_, { mr with begin_ := mr.begin_ + bytes }))
      ∧ (¬ mr.begin_ + bytes ≤ mr.end_ → mr.do_allocate bytes = (.error .bad_alloc, mr)) := by
  unfold simulated_memory_resource.do_allocate ptr_add
  rw [Nat.mod_eq_of_lt h]
  constructor
  · intro hle
    simp [hle]
  · intro hgt
    simp [hgt]

/-! ### Queries and the simulated resource -/

/-- C21: `do_deallocate` of the simulated resource leaves the state as it is, for every pointer
and size; so after any sequence of deallocations `do_allocate` behaves as before them: an
allocation that fails for lack of space keeps failing. -/
theorem C21_simulated_deallocate_ignored (mr : simulated_memory_resource) :
    (∀ ptr bytes, mr.do_deallocate ptr bytes = mr)
      ∧ (∀ (frees : List (Nat × Nat)),
          frees.foldl (fun m d => m.do_deallocate d.1 d.2) mr = mr)
      ∧ (∀ (frees : List (Nat × Nat)) (bytes : Nat),
          (frees.foldl (fun m d => m.do_deallocate d.1 d.2) mr).do_allocate bytes
            = mr.do_allocate bytes)
      ∧ (∀ (frees : List (Nat × Nat)) (bytes : Nat),
          mr.do_allocate bytes = (.error .bad_alloc, mr) →
          (frees.foldl (fun m d => m.do_deallocate d.1 d.2) mr).do_allocate bytes
            = (.error .bad_alloc, frees.foldl (fun m d => m.do_deallocate d.1 d.2) mr)) := by
  have hfold : ∀ (frees : List (Nat × Nat)),
      frees.foldl (fun m d => m.do_deallocate d.1 d.2) mr = mr := by
    intro frees
    induction frees with
    | nil => rfl
    | cons d ds ih => exact ih
  refine ⟨fun _ _ => rfl, hfold, fun frees bytes => by rw [hfold frees], ?_⟩
  intro frees bytes h
  rw [hfold frees]
  exact h

/-- C23 (defect in the code): `supports_get_mem_info()` of `cuda_async_view_memory_resource`
returns false for every resource, where its documentation says `@return true`. -/
theorem C23_async_view_supports_get_mem_info_false (mr : cuda_async_view_memory_resource) :
    mr.supports_get_mem_info = false ∧ mr.supports_get_mem_info ≠ true :=
  ⟨rfl, fun h => Bool.noConfusion h⟩

/-- C24: for every pool state and every stream, `do_get_mem_info` of the pool returns `(0, 0)`,
`supports_get_mem_info()` returns false and `supports_streams()` returns true. -/
theorem C24_pool_reports_no_memory_info (p : pool_memory_resource σ)
    (stream : cuda_stream_view) :
    p.do_get_mem_info stream = (0, 0)
      ∧ p.supports_get_mem_info = false
      ∧ p.supports_streams = true :=
  ⟨rfl, rfl, rfl⟩

theorem align_up_lt_range (v a : Nat) : align_up v a < size_t_range := by
  unfold align_up
  have h1 : (v + (a - 1)) % size_t_range < size_t_range := Nat.mod_lt _ (by decide)
  have h2 : (v + (a - 1)) % size_t_range / a * a ≤ (v + (a - 1)) % size_t_range :=
    Nat.div_mul_le_self _ _
  omega

/-- C25: in every pool state `get_maximum_allocation_size()` is the largest `std::size_t`
value; no `std::size_t` request size exceeds it, and the size check of the base class, which
compares the aligned request with it, never fails. -/
theorem C25_maximum_allocation_size (p q : pool_memory_resource σ) (size : Nat) :
    get_maximum_allocation_size p = SIZE_MAX
      ∧ get_maximum_allocation_size p = size_t_range - 1
      ∧ get_maximum_allocation_size p = get_maximum_allocation_size q
      ∧ (size < size_t_range → size ≤ get_maximum_allocation_size p)
      ∧ size_exceeded p size = false := by
  refine ⟨rfl, rfl, rfl, ?_, ?_⟩
  · intro h
    show size ≤ size_t_range - 1
    omega
  · have h := align_up_lt_range size CUDA_ALLOCATION_ALIGNMENT
    unfold size_exceeded get_maximum_allocation_size SIZE_MAX
    simp only [decide_eq_false_iff_not]
    omega

/-- C26: with a non-null upstream, the construction throws `logic_error` with no upstream call
made whenever the initial size to try (supplied, or computed from the memory figures) exceeds
the supplied maximum. With aligned sizes `I` and `M` it succeeds exactly when `I ≤ M` and
either `I = 0` or upstream grants `I` bytes; for `I = 0` it makes no upstream call and
`pool_size()` is zero. -/
theorem C26_construction_outcome (up : upstream_resource σ) (dm : Nat × Nat) (u : σ)
    (I M : Nat)
    (ha1 : is_aligned I CUDA_ALLOCATION_ALIGNMENT = true)
    (ha2 : is_aligned M CUDA_ALLOCATION_ALIGNMENT = true) :
    (∀ (initial : Option Nat) (M0 : Nat), M0 < initial_try_size up dm u initial →
        pool_memory_resource.new up dm (some u) initial (some M0) = .error (.logic_error, []))
      ∧ ((∃ p, pool_memory_resource.new up dm (some u) (some I) (some M) = .ok p)
          ↔ (I ≤ M ∧ (I = 0 ∨ ∃ ptr, (up.allocate u I).1 = some ptr)))
      ∧ (I = 0 →
          ∃ p, pool_memory_resource.new up dm (some u) (some I) (some M) = .ok p
            ∧ p.upstream_calls = [] ∧ pool_size p = 0) := by
  refine ⟨?_, ?_, ?_⟩
  · intro initial M0 hgt
    cases hb1 : is_aligned (initial.getD 0) CUDA_ALLOCATION_ALIGNMENT with
    | false => exact new_invalid up dm (some u) initial (some M0) (Or.inr (Or.inl hb1))
    | true =>
      cases hb2 : is_aligned ((some M0).getD 0) CUDA_ALLOCATION_ALIGNMENT with
      | false => exact new_invalid up dm (some u) initial (some M0) (Or.inr (Or.inr hb2))
      | true =>
        rw [new_aligned up dm u initial (some M0) hb1 hb2]
        obtain ⟨c1, _, _, _⟩ :=
          initialize_pool_cases up dm (empty_pool u none) initial (some M0)
        have hnot : ¬ initial_try_size up dm (empty_pool u none).upstream_mr_ initial
            ≤ (some M0).getD SIZE_MAX := by
          show ¬ initial_try_size up dm u initial ≤ M0
          omega
        rw [c1 hnot]
        rfl
  · rw [new_aligned up dm u (some I) (some M) ha1 ha2]
    obtain ⟨c1, c2, c3, c4⟩ := initialize_pool_cases up dm (empty_pool u none) (some I) (some M)
    by_cases hle : I ≤ M
    · by_cases h0 : I = 0
      · rw [c2 hle h0]
        exact ⟨fun _ => ⟨hle, Or.inl h0⟩, fun _ => ⟨_, rfl⟩⟩
      · cases hp : (up.allocate u I).1 with
        | none =>
          rw [c3 hle (Nat.pos_of_ne_zero h0) hp]
          constructor
          · rintro ⟨q, hq⟩
            exact Except.noConfusion hq
          · rintro ⟨_, h | ⟨ptr, h⟩⟩
            · exact absurd h h0
            · exact Option.noConfusion h
        | some ptr =>
          rw [c4 hle (Nat.pos_of_ne_zero h0) ptr hp]
          exact ⟨fun _ => ⟨hle, Or.inr ⟨ptr, rfl⟩⟩, fun _ => ⟨_, rfl⟩⟩
    · rw [c1 hle]
      constructor
      · rintro ⟨q, hq⟩
        exact Except.noConfusion hq
      · rintro ⟨h, _⟩
        exact absurd h hle
  · intro h0
    rw [new_aligned up dm u (some I) (some M) ha1 ha2]
    obtain ⟨_, c2, _, _⟩ := initialize_pool_cases up dm (empty_pool u none) (some I) (some M)
    have hle : I ≤ M := by omega
    rw [c2 hle h0]
    exact ⟨_, rfl, rfl, rfl⟩

/-- C26 (instance): initial size 256 within the maximum 1024 over a simulated upstream that
grants 256 bytes: the construction succeeds. -/
theorem C26_construction_outcome_witness :
    is_aligned 256 CUDA_ALLOCATION_ALIGNMENT = true
      ∧ is_aligned 1024 CUDA_ALLOCATION_ALIGNMENT = true
      ∧ ((∃ p, pool_memory_resource.new simulated_upstream (0, 0)
            (some (simulated_memory_resource.new 4096)) (some 256) (some 1024) = .ok p)
          ↔ (256 ≤ 1024 ∧ (256 = 0 ∨ ∃ ptr,
              (simulated_upstream.allocate (simulated_memory_resource.new 4096) 256).1
                = some ptr))) :=
  ⟨rfl, rfl,
    (C26_construction_outcome simulated_upstream (0, 0) (simulated_memory_resource.new 4096)
      256 1024 rfl rfl).2.1⟩

/-- C27: for every block `b` and size `s` with `0 < s < b.size`, the pieces of
`allocate_from_block(b, s)` have sizes that add up to `b.size`; the first starts where `b`
starts, its end (pointer plus size, in the address space) is where the second starts, and the
second is not a head: they form a coalescible pair whose merge is `b`. When the range of `b`
lies in the address space, the end of the first piece is the number `pointer + size`, the
pieces are disjoint and together cover exactly the range of `b`. -/
theorem C27_split_conserves_block (p : pool_memory_resource σ) (b : block) (s : Nat)
    (h0 : 0 < s) (hs : s < b.size) :
    (allocate_from_block p b s).1.1.size + (allocate_from_block p b s).1.2.size = b.size
      ∧ (allocate_from_block p b s).1.1.pointer = b.pointer
      ∧ ptr_add (allocate_from_block p b s).1.1.pointer (allocate_from_block p b s).1.1.size
          = (allocate_from_block p b s).1.2.pointer
      ∧ (allocate_from_block p b s).1.2.is_head = false
      ∧ block.is_contiguous_before (allocate_from_block p b s).1.1
          (allocate_from_block p b s).1.2 = true
      ∧ block.merge (allocate_from_block p b s).1.1 (allocate_from_block p b s).1.2 = b
      ∧ (b.pointer + b.size ≤ size_t_range →
          (allocate_from_block p b s).1.1.pointer + (allocate_from_block p b s).1.1.size
            = (allocate_from_block p b s).1.2.pointer
          ∧ (∀ a, ¬ ((allocate_from_block p b s).1.1.covers a
              ∧ (allocate_from_block p b s).1.2.covers a))
          ∧ (∀ a, b.covers a ↔ ((allocate_from_block p b s).1.1.covers a
              ∨ (allocate_from_block p b s).1.2.covers a))) := by
  have halloc : (allocate_from_block p b s).1.1 = ⟨b.pointer, s, b.is_head⟩ := rfl
  have hrest : (allocate_from_block p b s).1.2 = ⟨ptr_add b.pointer s, b.size - s, false⟩ := by
    have hgt : b.size > s := hs
    simp [allocate_from_block, hgt]
  rw [halloc, hrest]
  refine ⟨?_, rfl, rfl, rfl, ?_, ?_, ?_⟩
  · show s + (b.size - s) = b.size
    omega
  · simp [block.is_contiguous_before]
  · have hsum : s + (b.size - s) = b.size := by omega
    cases b with
    | mk ptr size head =>
      simp only [block.merge] at hsum ⊢
      rw [hsum]
  · intro hrange
    have hadd : ptr_add b.pointer s = b.pointer + s := by
      unfold ptr_add
      exact Nat.mod_eq_of_lt (by omega)
    rw [hadd]
    refine ⟨rfl, ?_, ?_⟩
    · intro a
      simp only [block.covers]
      omega
    · intro a
      simp only [block.covers]
      omega

/-- C27 (instance): splitting 128 bytes off the block `(512, 384, true)`. -/
theorem C27_split_conserves_block_witness :
    0 < 128 ∧ 128 < (⟨512, 384, true⟩ : block).size
      ∧ block.merge (allocate_from_block small_pool ⟨512, 384, true⟩ 128).1.1
          (allocate_from_block small_pool ⟨512, 384, true⟩ 128).1.2 = ⟨512, 384, true⟩ :=
  ⟨by decide, by decide,
    (C27_split_conserves_block small_pool ⟨512, 384, true⟩ 128 (by decide)
      (by decide)).2.2.2.2.2.1⟩

/-! ### Termination of try_to_expand -/

theorem try_to_expand_loop_fuel (up : upstream_resource σ) :
    ∀ (fuel₁ fuel₂ : Nat) (p : pool_memory_resource σ) (t m : Nat)
      (h₁ : t - m < fuel₁) (h₂ : t - m < fuel₂),
      try_to_expand_loop up fuel₁ p t m h₁ = try_to_expand_loop up fuel₂ p t m h₂ := by
  intro fuel₁
  induction fuel₁ with
  | zero => intro fuel₂ p t m h₁; exact absurd h₁ (Nat.not_lt_zero _)
  | succ f₁ ih =>
    intro fuel₂ p t m h₁ h₂
    cases fuel₂ with
    | zero => exact absurd h₂ (Nat.not_lt_zero _)
    | succ f₂ =>
      rw [try_to_expand_loop, try_to_expand_loop]
      by_cases hge : m ≤ t
      · simp only [hge, dite_true]
        cases hb : (block_from_upstream up p t).1 with
        | error e => rfl
        | ok o =>
          cases o with
          | some blk => rfl
          | none =>
            by_cases hne : t = m
            · simp only [hne, dite_true]
            · simp only [hne, dite_false]
              exact ih f₂ _ _ _ _ _
      · simp only [hge, dite_false]

theorem refusal_calls_succ_right (m k : Nat) :
    ∀ t, refusal_calls m t (k + 1)
      = refusal_calls m t k
        ++ (if halving t m k = 0 then [] else [upstream_call.allocate (halving t m k) none]) := by
  induction k with
  | zero => intro t; simp [refusal_calls, halving]
  | succ k ih =>
    intro t
    rw [refusal_calls, ih, refusal_calls, halving_shift, List.append_assoc]

theorem requested_sizes_append (a b : List upstream_call) :
    requested_sizes (a ++ b) = requested_sizes a ++ requested_sizes b := by
  simp [requested_sizes, List.filterMap_append]

theorem requested_sizes_refusal_calls (t m k : Nat)
    (h : ∀ j, j < k → halving t m j ≠ 0) :
    requested_sizes (refusal_calls m t k) = (List.range k).map (halving t m) := by
  induction k with
  | zero => rfl
  | succ k ih =>
    have hk : halving t m k ≠ 0 := h k (Nat.lt_succ_self k)
    rw [refusal_calls_succ_right, requested_sizes_append,
      ih (fun j hj => h j (Nat.lt_succ_of_lt hj)), List.range_succ, List.map_append]
    simp [hk, requested_sizes]

theorem halving_succ_lt (t m j : Nat) (hge : m ≤ t) (hne : halving t m j ≠ m) :
    halving t m (j + 1) < halving t m j := by
  have h1 := halving_ge t m hge j
  show max m (halving t m j / 2) < halving t m j
  have h2 : m < halving t m j := by omega
  have h3 : halving t m j / 2 < halving t m j := Nat.div_lt_self (by omega) (by decide)
  exact Nat.max_lt.mpr ⟨h2, h3⟩

theorem halving_strictly_decreasing (t m k : Nat) (hge : m ≤ t)
    (h : ∀ j, j < k → halving t m j ≠ m) :
    ∀ i j, i < j → j ≤ k → halving t m j < halving t m i := by
  intro i j hij
  induction j with
  | zero => exact absurd hij (Nat.not_lt_zero _)
  | succ j ih =>
    intro hjk
    have hstep := halving_succ_lt t m j hge (h j (by omega))
    rcases Nat.lt_or_ge i j with hlt | hge'
    · exact Nat.lt_trans hstep (ih hlt (by omega))
    · have : i = j := by omega
      subst this
      exact hstep

theorem halving_sizes_pairwise (t m k : Nat) (hge : m ≤ t)
    (h : ∀ j, j < k → halving t m j ≠ m) :
    ((List.range (k + 1)).map (halving t m)).Pairwise (· > ·) := by
  rw [List.pairwise_map]
  refine List.Pairwise.imp_of_mem ?_ (List.pairwise_lt_range (k + 1))
  intro i j _ hj hij
  have hj' : j < k + 1 := List.mem_range.mp hj
  exact halving_strictly_decreasing t m k hge h i j hij (by omega)

theorem refusal_calls_length_le (m k : Nat) : ∀ t, (refusal_calls m t k).length ≤ k := by
  induction k with
  | zero => intro t; exact Nat.le_refl 0
  | succ k ih =>
    intro t
    rw [refusal_calls, List.length_append]
    have h := ih (max m (t / 2))
    by_cases h0 : t = 0
    · rw [if_pos h0, List.length_nil]
      omega
    · rw [if_neg h0, List.length_singleton]
      omega

theorem halving_index_le (t m k : Nat) (hge : m ≤ t)
    (h : ∀ j, j < k → halving t m j ≠ m) :
    ∀ j, j ≤ k → halving t m j + j ≤ t := by
  intro j
  induction j with
  | zero => intro _; exact Nat.le_refl _
  | succ j ih =>
    intro hj
    have h1 := ih (by omega)
    have h2 := halving_succ_lt t m j hge (h j (by omega))
    omega

/-- The upstream calls of one `try_to_expand` from `min_size ≤ try_size`: all are `allocate`
calls, for positive sizes taken in order from the first `k + 1` sizes of the halving sequence,
none of the first `k` sizes being `min_size`. -/
theorem try_to_expand_requests (up : upstream_resource σ) (p : pool_memory_resource σ)
    (t m : Nat) (hge : m ≤ t) :
    ∃ k new_calls,
      (∀ j, j < k → halving t m j ≠ m)
      ∧ (try_to_expand up p t m).2.upstream_calls = p.upstream_calls ++ new_calls
      ∧ (∀ c ∈ new_calls, ∃ n r, c = upstream_call.allocate n r)
      ∧ (requested_sizes new_calls).Sublist ((List.range (k + 1)).map (halving t m))
      ∧ (∀ n ∈ requested_sizes new_calls, 0 < n)
      ∧ new_calls.length ≤ k + 1 := by
  obtain ⟨k, hk, hres⟩ := try_to_expand_spec up p t m hge
  have hne : ∀ j, j < k → halving t m j ≠ m := fun j hj => (hk j hj).1
  have hpos : ∀ j, j < k → halving t m j ≠ 0 := by
    intro j hj
    have h1 := halving_ge t m hge j
    have h2 := hne j hj
    omega
  have hprefix := requested_sizes_refusal_calls t m k hpos
  have hmem : ∀ n ∈ (List.range k).map (halving t m), 0 < n := by
    intro n hn
    obtain ⟨j, hj, rfl⟩ := List.mem_map.mp hn
    exact Nat.pos_of_ne_zero (hpos j (List.mem_range.mp hj))
  have hcase : (∃ e, try_to_expand up p t m = (.error e, refused_state up p t m (k + 1)))
      ∨ (∃ ptr, halving t m k ≠ 0 ∧ try_to_expand up p t m
          = (.ok (emplace p.upstream_blocks_ ⟨ptr, halving t m k, true⟩).2,
              granted_state up (refused_state up p t m k) (halving t m k) ptr)) := by
    rcases hres with ⟨_, _, heq⟩ | ⟨ptr, h0, _, heq⟩ | ⟨_, heq⟩
    · exact Or.inl ⟨_, heq⟩
    · exact Or.inr ⟨ptr, h0, heq⟩
    · exact Or.inl ⟨_, heq⟩
  rcases hcase with ⟨e, heq⟩ | ⟨ptr, h0, heq⟩
  · refine ⟨k, refusal_calls m t (k + 1), hne, by rw [heq]; rfl, ?_, ?_, ?_, ?_⟩
    · intro c hc
      obtain ⟨n, _, hn⟩ := refusal_calls_all_refused m (k + 1) t c hc
      exact ⟨n, none, hn⟩
    · rw [refusal_calls_succ_right, requested_sizes_append, hprefix, List.range_succ,
        List.map_append]
      apply List.Sublist.append (List.Sublist.refl _)
      by_cases hz : halving t m k = 0
      · simp [hz, requested_sizes]
      · simp [hz, requested_sizes]
    · rw [refusal_calls_succ_right, requested_sizes_append, hprefix]
      intro n hn
      rcases List.mem_append.mp hn with hn | hn
      · exact hmem n hn
      · by_cases hz : halving t m k = 0
        · simp [hz, requested_sizes] at hn
        · simp [hz, requested_sizes] at hn
          omega
    · exact refusal_calls_length_le m (k + 1) t
  · refine ⟨k, refusal_calls m t k ++ [.allocate (halving t m k) (some ptr)], hne, ?_, ?_, ?_,
      ?_, ?_⟩
    · rw [heq]
      show (p.upstream_calls ++ refusal_calls m t k) ++ [_] = _
      rw [List.append_assoc]
    · intro c hc
      rcases List.mem_append.mp hc with hc | hc
      · obtain ⟨n, _, hn⟩ := refusal_calls_all_refused m k t c hc
        exact ⟨n, none, hn⟩
      · exact ⟨_, _, List.mem_singleton.mp hc⟩
    · rw [requested_sizes_append, hprefix, List.range_succ, List.map_append]
      exact List.Sublist.refl _
    · rw [requested_sizes_append, hprefix]
      intro n hn
      rcases List.mem_append.mp hn with hn | hn
      · exact hmem n hn
      · have : n = halving t m k := by simpa [requested_sizes] using hn
        omega
    · rw [List.length_append, List.length_singleton]
      have := refusal_calls_length_le m k t
      omega

/-- C28: `try_to_expand` terminates for every `try_size`, every `min_size` and every upstream:
the loop gives the same result with every bound on its iterations above
`try_size - min_size`, and makes at most `try_size - min_size + 1` upstream calls, all of them
`allocate` calls; the sizes it requests are strictly decreasing, each lies between `min_size`
and `try_size`, and `min_size` is requested at most once. -/
theorem C28_try_to_expand_terminates (up : upstream_resource σ) (p : pool_memory_resource σ)
    (t m : Nat) :
    (∀ fuel (h : t - m < fuel), try_to_expand_loop up fuel p t m h = try_to_expand up p t m)
      ∧ ∃ new_calls,
        (try_to_expand up p t m).2.upstream_calls = p.upstream_calls ++ new_calls
        ∧ (∀ c ∈ new_calls, ∃ n r, c = upstream_call.allocate n r)
        ∧ new_calls.length ≤ t - m + 1
        ∧ (requested_sizes new_calls).Pairwise (· > ·)
        ∧ (∀ n ∈ requested_sizes new_calls, m ≤ n ∧ n ≤ t)
        ∧ (requested_sizes new_calls).count m ≤ 1 := by
  refine ⟨fun fuel h => try_to_expand_loop_fuel up fuel _ p t m h _, ?_⟩
  by_cases hlt : t < m
  · refine ⟨[], ?_, ?_, ?_, ?_, ?_, ?_⟩
    · rw [try_to_expand_below_min up p t m hlt, List.append_nil]
    · intro c hc
      exact absurd hc (List.not_mem_nil c)
    · exact Nat.zero_le _
    · exact List.Pairwise.nil
    · intro n hn
      exact absurd hn (List.not_mem_nil n)
    · exact Nat.zero_le _
  · have hge : m ≤ t := by omega
    obtain ⟨k, new_calls, hne, hcalls, hall, hsub, _, hlen⟩ :=
      try_to_expand_requests up p t m hge
    have hpair := (halving_sizes_pairwise t m k hge hne).sublist hsub
    have hk := halving_index_le t m k hge hne k (Nat.le_refl k)
    have hkm := halving_ge t m hge k
    refine ⟨new_calls, hcalls, hall, by omega, hpair, ?_, ?_⟩
    · intro n hn
      obtain ⟨j, _, rfl⟩ := List.mem_map.mp (hsub.subset hn)
      exact ⟨halving_ge t m hge j, halving_le t m hge j⟩
    · have hnodup : (requested_sizes new_calls).Nodup :=
        hpair.imp (fun hab => Nat.ne_of_gt hab)
      exact List.nodup_iff_count_le_one.mp hnodup m

/-- C29 (defect in the code): on a simulated resource of 4096 bytes, `do_allocate` of
`2 ^ 64 - 8` bytes succeeds at 0x100 and a following `do_allocate` of 16 bytes succeeds at 0xF8.
The second range starts below 0x100, the first reaches beyond `0x100 + 4096`, both contain the
address 0x100, and the bytes handed out exceed the 4096 bytes of the resource. -/
theorem C29_simulated_ranges_overlap :
    (simulated_memory_resource.new 4096).do_allocate (size_t_range - 8)
        = (.ok 0x100, { begin_ := 0xF8, end_ := 0x1100 })
      ∧ simulated_memory_resource.do_allocate { begin_ := 0xF8, end_ := 0x1100 } 16
        = (.ok 0xF8, { begin_ := 0x108, end_ := 0x1100 })
      ∧ (block.covers ⟨0x100, size_t_range - 8, true⟩ 0x100
        ∧ block.covers ⟨0xF8, 16, true⟩ 0x100)
      ∧ 0xF8 < 0x100
      ∧ ¬ (0x100 + (size_t_range - 8) ≤ 0x100 + 4096)
      ∧ ¬ ((size_t_range - 8) + 16 ≤ 4096) := by
  refine ⟨rfl, rfl, ⟨?_, ?_⟩, ?_, ?_, ?_⟩
  · unfold block.covers; decide
  · unfold block.covers; decide
  · decide
  · decide
  · decide

/-! ### The allocation-tracking build -/

theorem find_block_emplace (l : List block) (b : block)
    (h : find_block l b.pointer = none) :
    find_block (emplace l b).1 b.pointer = some b
      ∧ erase_block (emplace l b).1 b.pointer = l := by
  induction l with
  | nil => simp [find_block, erase_block, emplace]
  | cons x xs ih =>
    have hx : ¬ x.pointer = b.pointer := by
      intro hx
      simp [find_block, List.find?_cons, hx] at h
    have hxs : find_block xs b.pointer = none := by
      simpa [find_block, List.find?_cons, hx] using h
    obtain ⟨ih1, ih2⟩ := ih hxs
    unfold emplace
    split
    · simp [find_block, erase_block]
    · split
      · constructor
        · simpa [find_block, List.find?_cons, hx] using ih1
        · simp only [erase_block] at ih2 ⊢
          rw [List.eraseP_cons_of_neg (by simpa using hx), ih2]
      · exfalso; omega

theorem find_block_perm (l : List block) (ptr : Nat) (a : block)
    (h : find_block l ptr = some a) :
    List.Perm l (a :: erase_block l ptr) := by
  induction l with
  | nil => simp [find_block] at h
  | cons x xs ih =>
    by_cases hx : x.pointer = ptr
    · have ha : x = a := by simpa [find_block, List.find?_cons, hx] using h
      subst ha
      simp [erase_block, hx]
    · have hxs : find_block xs ptr = some a := by
        simpa [find_block, List.find?_cons, hx] using h
      simp only [erase_block] at ih ⊢
      rw [List.eraseP_cons_of_neg (by simpa using hx)]
      exact ((ih hxs).cons x).trans (List.Perm.swap a x _)

/-- C30: let the block recorded at the non-null pointer of `b` be the piece allocated by
`allocate_from_block(b, s)`, where the head flag of `b` is correct. Then `free_block(ptr, s)`
of the tracking build returns the block that the default build returns, `(ptr, s, is_head)`,
and removes the recorded block from `allocated_blocks_`. An `allocate_from_block(b, s)` of the
tracking build at a pointer with no recorded block records that piece, the `free_block` that
follows it returns the piece, and the removal gives back the set of before. -/
theorem C30_tracking_build_agrees (tp : tracking_pool σ) (b : block) (s : Nat)
    (hnonnull : b.pointer ≠ 0)
    (hhead : b.is_head = true ↔ ∃ x ∈ tp.pool.upstream_blocks_, x.pointer = b.pointer)
    (hrec : find_block tp.allocated_blocks_ b.pointer
      = some (allocate_from_block tp.pool b s).1.1) :
    free_block_tracking tp b.pointer s
        = some ((free_block tp.pool b.pointer s).1,
            { tp with allocated_blocks_ := erase_block tp.allocated_blocks_ b.pointer })
      ∧ (free_block tp.pool b.pointer s).1 = ⟨b.pointer, s, b.is_head⟩
      ∧ List.Perm tp.allocated_blocks_
          ((allocate_from_block tp.pool b s).1.1 :: erase_block tp.allocated_blocks_ b.pointer)
      ∧ (∀ tp0 : tracking_pool σ, tp0.pool = tp.pool →
          find_block tp0.allocated_blocks_ b.pointer = none →
          find_block (allocate_from_block_tracking tp0 b s).2.allocated_blocks_ b.pointer
            = some (allocate_from_block tp0.pool b s).1.1
          ∧ free_block_tracking (allocate_from_block_tracking tp0 b s).2 b.pointer s
            = some ((free_block tp0.pool b.pointer s).1, tp0)) := by
  have hdef : (free_block tp.pool b.pointer s).1 = ⟨b.pointer, s, b.is_head⟩ := by
    show (⟨b.pointer, s, ledger_contains tp.pool.upstream_blocks_ b.pointer⟩ : block) = _
    have hb : ledger_contains tp.pool.upstream_blocks_ b.pointer = b.is_head := by
      rw [Bool.eq_iff_iff, ledger_contains_iff]
      exact hhead.symm
    rw [hb]
  have halloc : (allocate_from_block tp.pool b s).1.1 = ⟨b.pointer, s, b.is_head⟩ := rfl
  refine ⟨?_, hdef, find_block_perm _ _ _ hrec, ?_⟩
  · unfold free_block_tracking
    rw [if_neg hnonnull, hrec, hdef, halloc]
  · intro tp0 hpool h0
    obtain ⟨hfind, herase⟩ := find_block_emplace tp0.allocated_blocks_ ⟨b.pointer, s, b.is_head⟩ h0
    refine ⟨hfind, ?_⟩
    have hfind2 : find_block (allocate_from_block_tracking tp0 b s).2.allocated_blocks_ b.pointer
        = some ⟨b.pointer, s, b.is_head⟩ := hfind
    have herase2 : erase_block (allocate_from_block_tracking tp0 b s).2.allocated_blocks_
        b.pointer = tp0.allocated_blocks_ := herase
    unfold free_block_tracking
    rw [if_neg hnonnull, hfind2, herase2, hpool, hdef]
    rfl

/-- C30 (instance): the recorded piece `(256, 512, true)` of the block `(256, 1024, true)` is
returned by both builds, and the tracking build is left with no recorded allocation. -/
theorem C30_tracking_build_agrees_witness :
    (⟨256, 1024, true⟩ : block).pointer ≠ 0
      ∧ ((⟨256, 1024, true⟩ : block).is_head = true
        ↔ ∃ x ∈ one_block_pool.upstream_blocks_, x.pointer = (⟨256, 1024, true⟩ : block).pointer)
      ∧ find_block [(⟨256, 512, true⟩ : block)] (⟨256, 1024, true⟩ : block).pointer
        = some (allocate_from_block one_block_pool ⟨256, 1024, true⟩ 512).1.1
      ∧ free_block_tracking (⟨one_block_pool, [⟨256, 512, true⟩]⟩ : tracking_pool _)
          (⟨256, 1024, true⟩ : block).pointer 512
        = some ((free_block one_block_pool (⟨256, 1024, true⟩ : block).pointer 512).1,
            ⟨one_block_pool, []⟩)
      ∧ (free_block one_block_pool (⟨256, 1024, true⟩ : block).pointer 512).1
        = ⟨256, 512, true⟩ :=
  have hh : (⟨256, 1024, true⟩ : block).is_head = true
      ↔ ∃ x ∈ one_block_pool.upstream_blocks_, x.pointer = (⟨256, 1024, true⟩ : block).pointer :=
    ⟨fun _ => ⟨⟨256, 1024, true⟩, List.mem_cons_self _ _, rfl⟩, fun _ => rfl⟩
  have w := C30_tracking_build_agrees ⟨one_block_pool, [⟨256, 512, true⟩]⟩ ⟨256, 1024, true⟩ 512
    (by decide) hh rfl
  ⟨by decide, hh, rfl, w.1, w.2.1⟩

/-! ### The summary of a free list -/

theorem free_list_summary_fold (blocks : List block) :
    ∀ acc : Nat × Nat, acc.2 < size_t_range →
      blocks.foldl (fun acc blk => (max acc.1 blk.size, (acc.2 + blk.size) % size_t_range)) acc
        = (max acc.1 (largest_size blocks), (acc.2 + ledger_total blocks) % size_t_range) := by
  induction blocks with
  | nil =>
    intro acc hacc
    simp [largest_size, ledger_total, Nat.mod_eq_of_lt hacc]
  | cons x xs ih =>
    intro acc hacc
    rw [List.foldl_cons, ih _ (Nat.mod_lt _ (by decide))]
    simp only [largest_size, ledger_total, List.map_cons, List.foldr_cons, List.sum_cons]
    rw [Nat.mod_add_mod, Nat.add_assoc, Nat.max_assoc]

theorem largest_size_ge (blocks : List block) :
    ∀ b ∈ blocks, b.size ≤ largest_size blocks := by
  induction blocks with
  | nil => intro b hb; exact absurd hb (List.not_mem_nil b)
  | cons x xs ih =>
    intro b hb
    show b.size ≤ max x.size (largest_size xs)
    rcases List.mem_cons.mp hb with h | h
    · rw [h]; exact Nat.le_max_left _ _
    · exact Nat.le_trans (ih b h) (Nat.le_max_right _ _)

theorem largest_size_attained (blocks : List block) (hne : blocks ≠ []) :
    ∃ b ∈ blocks, b.size = largest_size blocks := by
  induction blocks with
  | nil => exact absurd rfl hne
  | cons x xs ih =>
    show ∃ b ∈ x :: xs, b.size = max x.size (largest_size xs)
    rcases Nat.le_total (largest_size xs) x.size with h | h
    · exact ⟨x, List.mem_cons_self _ _, (Nat.max_eq_left h).symm⟩
    · cases xs with
      | nil =>
        have hz : largest_size ([] : List block) = 0 := rfl
        rw [hz] at h ⊢
        exact ⟨x, List.mem_cons_self _ _, by omega⟩
      | cons y ys =>
        obtain ⟨b, hb, hbs⟩ := ih (List.cons_ne_nil y ys)
        exact ⟨b, List.mem_cons_of_mem _ hb, by rw [hbs, Nat.max_eq_right h]⟩

theorem largest_size_le_total (blocks : List block) :
    largest_size blocks ≤ ledger_total blocks := by
  induction blocks with
  | nil => exact Nat.le_refl 0
  | cons x xs ih =>
    show max x.size (largest_size xs) ≤ ((x :: xs).map block.size).sum
    rw [List.map_cons, List.sum_cons]
    have h : ledger_total xs = (xs.map block.size).sum := rfl
    exact Nat.max_le.mpr ⟨Nat.le_add_right _ _, by omega⟩

/-- The sizes of the blocks of a well-formed free list, which lie side by side in the address
space above the null pointer, add up to less than `2 ^ 64`. -/
theorem free_list_wf_total_lt (blocks : List block) (hwf : free_list_wf blocks) :
    ledger_total blocks < size_t_range := by
  have key : ∀ (l : List block) (lo : Nat),
      l.Pairwise (fun a b => a.pointer + a.size ≤ b.pointer) →
      (∀ b ∈ l, lo ≤ b.pointer ∧ b.pointer + b.size ≤ size_t_range) →
      lo ≤ size_t_range → lo + ledger_total l ≤ size_t_range := by
    intro l
    induction l with
    | nil => intro lo _ _ hlo; exact hlo
    | cons x xs ih =>
      intro lo hp hb _
      obtain ⟨hx, hxs⟩ := List.pairwise_cons.mp hp
      have h1 := hb x (List.mem_cons_self _ _)
      have h2 := ih (x.pointer + x.size) hxs
        (fun b hbm => ⟨hx b hbm, (hb b (List.mem_cons_of_mem _ hbm)).2⟩) h1.2
      have h3 : ledger_total (x :: xs) = x.size + ledger_total xs := by
        simp [ledger_total]
      omega
  have h := key blocks 1 hwf.1 (fun b hb => hwf.2 b hb) (by decide)
  omega

/-- C31 (the claim fails): the list of two head blocks of `2 ^ 63` bytes each, at address 256
and at the address where the first ends, has non-null pointers and positive sizes and meets
the two invariants of a free list; its summary is `(2 ^ 63, 0)`: the total, a `std::size_t`,
has wrapped around, it is not the sum of the sizes, and the largest size is above it. -/
theorem C31_summary_total_wraps :
    free_list_invariant two_half_space_blocks
      ∧ (∀ b ∈ two_half_space_blocks, 0 < b.pointer ∧ b.pointer < size_t_range)
      ∧ free_list_summary two_half_space_blocks = (size_t_range / 2, 0)
      ∧ (two_half_space_blocks.map block.size).sum = size_t_range
      ∧ (free_list_summary two_half_space_blocks).2
          ≠ (two_half_space_blocks.map block.size).sum
      ∧ ¬ ((free_list_summary two_half_space_blocks).1
          ≤ (free_list_summary two_half_space_blocks).2) := by
  refine ⟨?_, ?_, rfl, rfl, ?_, ?_⟩
  · unfold free_list_invariant two_half_space_blocks
    decide
  · unfold two_half_space_blocks
    decide
  · decide
  · decide

/-- C31 (amended): for every list, `free_list_summary(blocks)` returns the pair
`(largest, total)`, where `largest` is the maximum block size (zero for an empty list, attained
by a block otherwise) and `total` is the sum of the block sizes reduced modulo `2 ^ 64`, as the
`std::size_t` accumulation gives it; the empty list gives `(0, 0)`. `total` is the sum itself
exactly when the sum is below `2 ^ 64`, and then `largest ≤ total`; this is so for every list
whose blocks lie side by side in the address space above the null pointer. -/
theorem C31_free_list_summary (blocks : List block) :
    free_list_summary [] = (0, 0)
      ∧ (free_list_summary blocks).1 = largest_size blocks
      ∧ (∀ b ∈ blocks, b.size ≤ (free_list_summary blocks).1)
      ∧ (blocks ≠ [] → ∃ b ∈ blocks, b.size = (free_list_summary blocks).1)
      ∧ (free_list_summary blocks).2 = (blocks.map block.size).sum % size_t_range
      ∧ ((free_list_summary blocks).2 = (blocks.map block.size).sum
          ↔ (blocks.map block.size).sum < size_t_range)
      ∧ ((blocks.map block.size).sum < size_t_range →
          (free_list_summary blocks).1 ≤ (free_list_summary blocks).2)
      ∧ (free_list_wf blocks →
          (free_list_summary blocks).2 = (blocks.map block.size).sum
          ∧ (free_list_summary blocks).1 ≤ (free_list_summary blocks).2) := by
  have h : free_list_summary blocks
      = (largest_size blocks, ledger_total blocks % size_t_range) := by
    unfold free_list_summary
    rw [free_list_summary_fold blocks (0, 0) (by decide)]
    simp
  have hsum : (blocks.map block.size).sum = ledger_total blocks := rfl
  have hle : ledger_total blocks < size_t_range →
      (free_list_summary blocks).1 ≤ (free_list_summary blocks).2 := by
    intro hlt
    rw [h, Nat.mod_eq_of_lt hlt]
    exact largest_size_le_total blocks
  have hiff : (free_list_summary blocks).2 = ledger_total blocks
      ↔ ledger_total blocks < size_t_range := by
    rw [h]
    constructor
    · intro he
      have hlt : ledger_total blocks % size_t_range < size_t_range :=
        Nat.mod_lt _ (by decide)
      have he2 : ledger_total blocks % size_t_range = ledger_total blocks := he
      rw [he2] at hlt
      exact hlt
    · intro hlt
      exact Nat.mod_eq_of_lt hlt
  rw [hsum]
  refine ⟨rfl, by rw [h], ?_, ?_, by rw [h], hiff, hle, fun hwf => ?_⟩
  · rw [h]
    exact largest_size_ge blocks
  · rw [h]
    exact largest_size_attained blocks
  · have hlt := free_list_wf_total_lt blocks hwf
    exact ⟨hiff.mpr hlt, hle hlt⟩

/-- C31 (instance): the free list made of the blocks `(256, 256, true)` and `(640, 128, false)`
has the summary `(256, 384)`. -/
theorem C31_free_list_summary_witness :
    free_list_wf [⟨256, 256, true⟩, ⟨640, 128, false⟩]
      ∧ free_list_summary [⟨256, 256, true⟩, ⟨640, 128, false⟩] = (256, 384)
      ∧ (free_list_summary [⟨256, 256, true⟩, ⟨640, 128, false⟩]).2
        = ([⟨256, 256, true⟩, ⟨640, 128, false⟩].map block.size).sum
      ∧ (free_list_summary [⟨256, 256, true⟩, ⟨640, 128, false⟩]).1
        ≤ (free_list_summary [⟨256, 256, true⟩, ⟨640, 128, false⟩]).2 :=
  have hwf : free_list_wf [⟨256, 256, true⟩, ⟨640, 128, false⟩] := by
    unfold free_list_wf
    decide
  have w := (C31_free_list_summary [⟨256, 256, true⟩, ⟨640, 128, false⟩]).2.2.2.2.2.2.2 hwf
  ⟨hwf, rfl, w.1, w.2⟩

/-! ### The pool size and the ledger, over the life of a pool -/

/-- C6 (the claim fails): a pool is built with initial size `2 ^ 63` over an upstream that grants
that size at address 4096, and `expand_pool(256)` then obtains `2 ^ 63` bytes more at address
8192. Upstream has returned no pointer that the ledger held, the ledger holds two blocks whose
sizes add up to `2 ^ 64`, and `pool_size()`, a `std::size_t`, is zero. -/
theorem C6_pool_size_wraps_around :
    pool_memory_resource.new scripted_upstream (0, 0) (some [some 4096, some 8192])
        (some (size_t_range / 2)) none = .ok half_space_pool
      ∧ ops_fresh scripted_upstream half_space_pool [.expand_pool 256] = true
      ∧ (run_ops scripted_upstream half_space_pool [.expand_pool 256]).upstream_blocks_
          = [⟨4096, size_t_range / 2, true⟩, ⟨8192, size_t_range / 2, true⟩]
      ∧ ledger_total (run_ops scripted_upstream half_space_pool [.expand_pool 256]).upstream_blocks_
          = size_t_range
      ∧ pool_size (run_ops scripted_upstream half_space_pool [.expand_pool 256]) = 0
      ∧ pool_size (run_ops scripted_upstream half_space_pool [.expand_pool 256])
          ≠ ledger_total
              (run_ops scripted_upstream half_space_pool [.expand_pool 256]).upstream_blocks_ := by
  have hnew : pool_memory_resource.new scripted_upstream (0, 0) (some [some 4096, some 8192])
      (some (size_t_range / 2)) none = .ok half_space_pool := by
    rw [new_aligned scripted_upstream (0, 0) [some 4096, some 8192] (some (size_t_range / 2))
      none (by decide) (by decide)]
    rw [(initialize_pool_cases scripted_upstream (0, 0)
      (empty_pool [some 4096, some 8192] none) (some (size_t_range / 2)) none).2.2.2
      (by decide) (by decide) 4096 rfl]
    rfl
  have hexp : expand_pool scripted_upstream half_space_pool 256
      = (.ok ⟨8192, size_t_range / 2, true⟩,
          granted_state scripted_upstream half_space_pool (size_t_range / 2) 8192) :=
    try_to_expand_first_granted scripted_upstream half_space_pool (size_t_range / 2) 256 8192
      (by decide) (by decide) rfl
  have hfresh : ops_fresh scripted_upstream half_space_pool [.expand_pool 256] = true := by
    simp only [ops_fresh, op_fresh, hexp, Bool.and_true]
    rfl
  have hrun : run_ops scripted_upstream half_space_pool [.expand_pool 256]
      = granted_state scripted_upstream half_space_pool (size_t_range / 2) 8192 := by
    simp only [run_ops, List.foldl, apply_op, hexp]
  rw [hrun]
  refine ⟨hnew, hfresh, rfl, rfl, rfl, ?_⟩
  rw [show pool_size (granted_state scripted_upstream half_space_pool (size_t_range / 2) 8192)
      = 0 from rfl]
  rw [show ledger_total
      (granted_state scripted_upstream half_space_pool (size_t_range / 2) 8192).upstream_blocks_
      = size_t_range from rfl]
  decide

/-- C6 (amended): after a successful construction and after every sequence of operations
(`expand_pool` succeeding or failing, `free_block`, `allocate_from_block`, `release`) during
which upstream never returns a pointer that the ledger holds, `pool_size()` is the sum of the
sizes of the ledger blocks reduced modulo `2 ^ 64`, as `std::size_t` arithmetic gives it. It
is that sum itself whenever the sum is below `2 ^ 64`, and so whenever the ledger blocks lie
side by side in the address space above the null pointer. -/
theorem C6_pool_size_is_ledger_total (up : upstream_resource σ) (dm : Nat × Nat)
    (upstream_mr : Option σ) (initial maximum : Option Nat) (p : pool_memory_resource σ)
    (ops : List pool_op)
    (hnew : pool_memory_resource.new up dm upstream_mr initial maximum = .ok p)
    (hfresh : ops_fresh up p ops = true) :
    pool_size (run_ops up p ops)
        = ledger_total (run_ops up p ops).upstream_blocks_ % size_t_range
      ∧ (ledger_total (run_ops up p ops).upstream_blocks_ < size_t_range →
          pool_size (run_ops up p ops) = ledger_total (run_ops up p ops).upstream_blocks_)
      ∧ (free_list_wf (run_ops up p ops).upstream_blocks_ →
          pool_size (run_ops up p ops) = ledger_total (run_ops up p ops).upstream_blocks_) := by
  have h := run_ops_total up ops p (new_total up dm upstream_mr initial maximum p hnew) hfresh
  have hex : ledger_total (run_ops up p ops).upstream_blocks_ < size_t_range →
      pool_size (run_ops up p ops) = ledger_total (run_ops up p ops).upstream_blocks_ := by
    intro hlt
    rw [Nat.mod_eq_of_lt hlt] at h
    exact h
  exact ⟨h, hex, fun hwf => hex (free_list_wf_total_lt _ hwf)⟩

/-- C6 (instance): the pool built with initial size 256 and maximum 1024 over a simulated
upstream of 4096 bytes, taken through `small_pool_ops`. -/
theorem C6_pool_size_is_ledger_total_witness :
    pool_memory_resource.new simulated_upstream (0, 0) (some (simulated_memory_resource.new 4096))
        (some 256) (some 1024) = .ok small_pool
      ∧ ops_fresh simulated_upstream small_pool (small_pool_ops) = true
      ∧ (run_ops simulated_upstream small_pool (small_pool_ops)).upstream_blocks_
          = [⟨256, 256, true⟩, ⟨512, 384, true⟩]
      ∧ pool_size (run_ops simulated_upstream small_pool (small_pool_ops))
          = ledger_total
              (run_ops simulated_upstream small_pool (small_pool_ops)).upstream_blocks_ :=
  ⟨rfl, rfl, rfl,
    (C6_pool_size_is_ledger_total simulated_upstream (0, 0)
      (some (simulated_memory_resource.new 4096)) (some 256) (some 1024) small_pool
      (small_pool_ops) rfl rfl).2.1 (by decide)⟩

end rmm
